import Mathlib

/-!
# euvv: EU VAT number validation

A shallow embedding of the Go packages `euvv` (`euvv.go`, `country-formats.go`)
and `ecws` (`ecws/ecws.go`).

* A Go `string` is a sequence of bytes: `len(s)` is `List.length`, `s[:2]` is
  `List.take 2` and `s[2:]` is `List.drop 2` (both slices are only taken
  after the guard `len(s) >= 3`, where they cannot go out of range).
* A Go `error` is a value of `GoError`; the `nil` error is `none`.
* The standard library (`encoding/xml`, `net/http`, `io/ioutil`) is outside
  the repository: the XML token reader is a list of tokens, and the parts
  that interpret element content or talk to the network are fields of the
  structures `XMLLib` and `World`.
-/

namespace Euvv

/-! ## Strings and errors -/

/-- A Go string: a read-only sequence of bytes. -/
abbrev GoString := List UInt8

/-- The bytes (UTF-8) of a string literal of the source. -/
def str (s : String) : GoString := s.toList.flatMap String.utf8EncodeChar

/-- Go error values of the two packages. The first four are the variables of
package level, made once with `errors.New`; `errorString` is a value made by
`errors.New` at a return statement; `UnmarshalError` is `xml.UnmarshalError`;
`lib` is an error value handed back by the standard library. -/
inductive GoError where
  | ErrUnknownCountryPrefix
  | ErrInvalidNumberFormat
  | ErrInvalidInputData
  | ErrEmptyResponse
  | errorString (msg : GoString)
  | UnmarshalError (msg : GoString)
  | lib (msg : GoString)
  deriving DecidableEq, Repr

/-- The method `Error()` of an error value. -/
def GoError.Error : GoError → GoString
  | .ErrUnknownCountryPrefix => str "unknown country prefix"
  | .ErrInvalidNumberFormat => str "invalid number format"
  | .ErrInvalidInputData => str "invalid input data"
  | .ErrEmptyResponse => str "empty response"
  | .errorString msg => msg
  | .UnmarshalError msg => msg
  | .lib msg => msg

/-! ## country-formats.go -/

def cz (_num : GoString) : Bool := true

def de (_num : GoString) : Bool := true

def se (_num : GoString) : Bool := true

def nl (_num : GoString) : Bool := true

def gb (_num : GoString) : Bool := true

def pl (_num : GoString) : Bool := true

def it (_num : GoString) : Bool := true

/-- A `map[string]func(string) bool`: a finite list of key/value pairs with
distinct keys; a value may be the `nil` function (`none`). -/
abbrev FormatMap := List (GoString × Option (GoString → Bool))

/-- The two-result map index `f, ok := m[k]`: `none` is `ok == false`. -/
def FormatMap.index (m : FormatMap) (k : GoString) : Option (Option (GoString → Bool)) :=
  match m with
  | [] => none
  | (k', f) :: rest => if k' = k then some f else FormatMap.index rest k

/-- The registry `vatFormatValidator`. -/
def vatFormatValidator : FormatMap :=
  [ (str "CZ", some cz),
    (str "DE", some de),
    (str "SE", some se),
    (str "NL", some nl),
    (str "GB", some gb),
    (str "PL", some pl),
    (str "IT", some it) ]

/-- The keys of a map. -/
def FormatMap.keys (m : FormatMap) : List GoString := m.map Prod.fst

/-! ## euvv.go: `Split` -/

/-- The three results `(country, num, err)` of `Split`. -/
@[ext]
structure SplitResult where
  country : GoString
  num : GoString
  err : Option GoError
  deriving DecidableEq

/-- The body of `VatValidator.Split`, with the package-level map it reads
taken as the argument `registry` and the receiver's only field it reads as
`formatValidationRequired`. -/
def SplitWith (registry : FormatMap) (formatValidationRequired : Bool) (s : GoString) :
    SplitResult :=
  if s.length < 3 then
    ⟨[], [], some .ErrInvalidInputData⟩
  else if formatValidationRequired == false then
    ⟨s.take 2, s.drop 2, none⟩
  else
    match registry.index (s.take 2) with
    | none => ⟨[], [], some .ErrUnknownCountryPrefix⟩
    | some f =>
      match f with
      | some f =>
        if f (s.drop 2) == false then
          ⟨[], [], some .ErrInvalidNumberFormat⟩
        else
          ⟨s.take 2, s.drop 2, none⟩
      | none => ⟨s.take 2, s.drop 2, none⟩

/-! ## encoding/xml: tokens and the token reader -/

/-- The type `xml.Name`. -/
structure Name where
  Space : GoString
  Local : GoString
  deriving DecidableEq, Repr

/-- The type `xml.Attr`. -/
structure Attr where
  Name : Name
  Value : GoString
  deriving DecidableEq, Repr

/-- The type `xml.StartElement`. -/
structure StartElement where
  Name : Name
  Attr : List Attr
  deriving DecidableEq, Repr

/-- The dynamic types an `xml.Token` can hold. -/
inductive Token where
  | StartElement (se : StartElement)
  | EndElement (name : Name)
  | CharData (data : GoString)
  | Comment (data : GoString)
  | ProcInst (target : GoString) (inst : GoString)
  | Directive (data : GoString)
  deriving DecidableEq, Repr

/-- An `*xml.Decoder` standing somewhere in its input: the tokens it has
still to deliver, and the error `Token()` reports once they are used up
(`io.EOF`, or the syntax error at which the input breaks off). -/
structure Decoder where
  tokens : List Token
  eof : GoError
  deriving DecidableEq, Repr

/-- The method `d.Token()` with its two results and the decoder afterwards. A nil
token comes with an error only. -/
def Decoder.Token (d : Decoder) : Option Token × Option GoError × Decoder :=
  match d.tokens with
  | [] => (none, some d.eof, d)
  | t :: ts => (some t, none, { d with tokens := ts })

/-- The tokens of an element whose start tag has just been read: those up to
its matching end tag, and those after it. `depth` counts the start tags met
and not yet closed; `none` when the tokens run out before the end tag. -/
def splitElement : Nat → List Token → Option (List Token × List Token)
  | _, [] => none
  | depth, .StartElement se :: ts =>
    match splitElement (depth + 1) ts with
    | some (inner, rest) => some (.StartElement se :: inner, rest)
    | none => none
  | 0, .EndElement _ :: ts => some ([], ts)
  | depth + 1, .EndElement n :: ts =>
    match splitElement depth ts with
    | some (inner, rest) => some (.EndElement n :: inner, rest)
    | none => none
  | depth, t :: ts =>
    match splitElement depth ts with
    | some (inner, rest) => some (t :: inner, rest)
    | none => none

/-- The method `d.DecodeElement(v, &se)` for a non-nil pointer `v`, with the
pointed-to value before and after. The decoder reads through the end tag
that matches `se`; what the tokens in between do to the value is the
argument `unmarshal` (it is `encoding/xml` walking the type of `v`). When the
input breaks off inside the element the call fails with the decoder's
error or an earlier one, and `brokenOff` gives the value the library leaves
behind after the tokens read and the error it reports. -/
def Decoder.DecodeElement {V : Type}
    (unmarshal : StartElement → List Euvv.Token → V → V × Option GoError)
    (brokenOff : StartElement → List Euvv.Token → GoError → V → V × GoError)
    (d : Decoder) (v : V) (se : StartElement) : V × Option GoError × Decoder :=
  match splitElement 0 d.tokens with
  | some (inner, rest) =>
    ((unmarshal se inner v).1, (unmarshal se inner v).2, { d with tokens := rest })
  | none =>
    ((brokenOff se d.tokens d.eof v).1, some (brokenOff se d.tokens d.eof v).2,
      { d with tokens := [] })

/-! ## ecws.go: data -/

/-- An address of a response value. -/
abbrev Ptr := Nat

/-- The response values behind the pointers. -/
abbrev Heap (R : Type) := Ptr → R

/-- The struct `SOAPFault`. -/
structure SOAPFault where
  XMLName : Name
  Code : GoString
  String : GoString
  Actor : GoString
  Detail : GoString
  deriving DecidableEq, Repr

/-- The composite literal `SOAPFault{}`. -/
def SOAPFault.zero : SOAPFault := ⟨⟨[], []⟩, [], [], [], []⟩

/-- The method `(f *SOAPFault) Error()`. -/
def SOAPFault.Error (f : SOAPFault) : GoString := f.String

/-- The struct `SOAPHeader`; `H` is the type of the header items. -/
structure SOAPHeader (H : Type) where
  XMLName : Name
  Items : List H

/-- The struct `SOAPBody`. `Fault` is a pointer owned by the body (`none` is
nil); `Content` is the `interface{}` field, holding a value of `C` or nil:
the request in an outgoing envelope, a pointer to the response in an
incoming one. -/
structure SOAPBody (C : Type) where
  XMLName : Name
  Fault : Option SOAPFault
  Content : Option C

/-- The struct `SOAPEnvelope`. -/
structure SOAPEnvelope (H C : Type) where
  XMLName : Name
  Header : Option (SOAPHeader H)
  Body : SOAPBody C

/-- The composite literal `SOAPEnvelope{}`. -/
def SOAPEnvelope.zero {H C : Type} : SOAPEnvelope H C :=
  ⟨⟨[], []⟩, none, ⟨⟨[], []⟩, none, none⟩⟩

/-- The part of `encoding/xml` that fills a Go value from the tokens of an
element: the new value and the error, for the response type `R` and for
`SOAPFault`; and, for an element inside which the input breaks off with a
given error, the value left behind and the error reported. -/
structure XMLLib (R : Type) where
  unmarshalContent : StartElement → List Token → R → R × Option GoError
  unmarshalFault : StartElement → List Token → SOAPFault → SOAPFault × Option GoError
  contentBrokenOff : StartElement → List Token → GoError → R → R × GoError
  faultBrokenOff : StartElement → List Token → GoError → SOAPFault → SOAPFault × GoError

/-! ## ecws.go: `SOAPBody.UnmarshalXML` -/

/-- What `UnmarshalXML` leaves behind: the returned error, the receiver, the
response values and the decoder. -/
structure UnmarshalResult (R : Type) where
  err : Option GoError
  b : SOAPBody Ptr
  heap : Heap R
  d : Decoder

def soapEnvelopeSpace : GoString := str "http://schemas.xmlsoap.org/soap/envelope/"

def multipleElements : GoError :=
  .UnmarshalError
    (str "Found multiple elements inside SOAP body; not wrapped-document/literal WS-I compliant")

/-- The labelled `for` loop of `UnmarshalXML`, one iteration per unit of
`fuel`, with the local `consumed`. Every iteration reads at least one token,
so `fuel` above the number of tokens left is never used up. -/
def SOAPBody.UnmarshalXML.loop {R : Type} (lib : XMLLib R) :
    Nat → Bool → SOAPBody Ptr → Heap R → Decoder → UnmarshalResult R
  | 0, _, b, heap, d => ⟨some d.eof, b, heap, d⟩
  | fuel + 1, consumed, b, heap, d =>
    match d.Token with
    | (_, some err, d) => ⟨some err, b, heap, d⟩
    | (none, none, d) => ⟨none, b, heap, d⟩
    | (some (.StartElement se), none, d) =>
      if consumed then
        ⟨some multipleElements, b, heap, d⟩
      else if se.Name.Space = soapEnvelopeSpace ∧ se.Name.Local = str "Fault" then
        let r := d.DecodeElement lib.unmarshalFault lib.faultBrokenOff SOAPFault.zero se
        let b := { b with Fault := some r.1, Content := none }
        match r.2.1 with
        | some err => ⟨some err, b, heap, r.2.2⟩
        | none => SOAPBody.UnmarshalXML.loop lib fuel true b heap r.2.2
      else
        match b.Content with
        | none => ⟨some (.lib (str "non-pointer passed to Unmarshal")), b, heap, d⟩
        | some p =>
          let r := d.DecodeElement lib.unmarshalContent lib.contentBrokenOff (heap p) se
          let heap := Function.update heap p r.1
          match r.2.1 with
          | some err => ⟨some err, b, heap, r.2.2⟩
          | none => SOAPBody.UnmarshalXML.loop lib fuel true b heap r.2.2
    | (some (.EndElement _), none, d) => ⟨none, b, heap, d⟩
    | (some _, none, d) => SOAPBody.UnmarshalXML.loop lib fuel consumed b heap d

/-- The method `(b *SOAPBody) UnmarshalXML(d, start)`. -/
def SOAPBody.UnmarshalXML {R : Type} (lib : XMLLib R) (b : SOAPBody Ptr) (heap : Heap R)
    (d : Decoder) (_start : StartElement) : UnmarshalResult R :=
  if b.Content = none then
    ⟨some (.UnmarshalError (str "Content must be a pointer to a struct")), b, heap, d⟩
  else
    SOAPBody.UnmarshalXML.loop lib (d.tokens.length + 1) false b heap d

/-! ## ecws.go: the SOAP client -/

/-- A 64-bit signed integer operation result: the value modulo 2^64, taken
in the range from -2^63. -/
def wrapInt64 (x : Int) : Int := (x + 2 ^ 63) % 2 ^ 64 - 2 ^ 63

/-- The constant `time.Second`, in nanoseconds. -/
def Second : Int := 1000000000

/-- The fields of `http.Client` that are set. -/
structure HTTPClient where
  Timeout : Int
  deriving DecidableEq, Repr

/-- The fields of `http.Request` that are set. -/
structure Request where
  Method : GoString
  URL : GoString
  Body : GoString
  Header : List (GoString × GoString)
  Close : Bool
  deriving DecidableEq, Repr

/-- The bytes allowed in the name of a header line: letters, digits and
the marks of an HTTP token. -/
def validHeaderFieldByte (c : UInt8) : Bool :=
  (65 ≤ c.toNat && c.toNat ≤ 90) || (97 ≤ c.toNat && c.toNat ≤ 122) ||
    (48 ≤ c.toNat && c.toNat ≤ 57) ||
    c.toNat ∈ [33, 35, 36, 37, 38, 39, 42, 43, 45, 46, 94, 95, 96, 124, 126]

/-- The letters of a header name put in canonical case: upper case at the
start and after a dash (`upper` says that such a place is reached), lower
case elsewhere. -/
def canonicalCase : Bool → GoString → GoString
  | _, [] => []
  | upper, c :: cs =>
    let c' : UInt8 :=
      if upper && 97 ≤ c.toNat && c.toNat ≤ 122 then UInt8.ofNat (c.toNat - 32)
      else if !upper && 65 ≤ c.toNat && c.toNat ≤ 90 then UInt8.ofNat (c.toNat + 32)
      else c
    c' :: canonicalCase (c'.toNat = 45) cs

/-- The function `textproto.CanonicalMIMEHeaderKey`, which `Header.Add` and
`Header.Set` apply to the key: a key with a byte that is not allowed in a
header name is left as it is. -/
def CanonicalMIMEHeaderKey (s : GoString) : GoString :=
  if s.all validHeaderFieldByte then canonicalCase true s else s

/-- The method `Header.Add`. -/
def Request.headerAdd (req : Request) (key value : GoString) : Request :=
  { req with Header := req.Header ++ [(CanonicalMIMEHeaderKey key, value)] }

/-- The method `Header.Set`. -/
def Request.headerSet (req : Request) (key value : GoString) : Request :=
  { req with
    Header := req.Header.filter (fun kv => kv.1 ≠ CanonicalMIMEHeaderKey key) ++
      [(CanonicalMIMEHeaderKey key, value)] }

/-- The struct `SOAPClient`. -/
structure SOAPClient (H : Type) where
  hc : HTTPClient
  url : GoString
  verboseMode : Bool
  headers : List H

/-- The standard library and the network as one call of `Call` meets them.
`Encode` and `Flush` give the content of the buffer afterwards and the
error; `NewRequest` and `Do` give a value or an error, the value of `Do`
being the response body as `ioutil.ReadAll` will read it (the bytes and the
read error); `Unmarshal` is
`xml.Unmarshal(rawbody, respEnvelope)` with the envelope and the response
values before and after. -/
structure World (H Q R : Type) where
  Encode : SOAPEnvelope H Q → GoString × Option GoError
  Flush : GoString → GoString × Option GoError
  NewRequest : GoString → GoString → GoString → Except GoError Request
  Do : HTTPClient → Request → Except GoError (GoString × Option GoError)
  Unmarshal : GoString → SOAPEnvelope H Ptr → Heap R →
    Option GoError × SOAPEnvelope H Ptr × Heap R

/-- What `Call` leaves behind: the returned error, the response values, and
the bytes written to standard output. -/
structure CallResult (R : Type) where
  err : Option GoError
  heap : Heap R
  stdout : GoString

/-- The call `fmt.Println(label, s)`: the operands with a space between them
and a newline after. -/
def Println2 (label s : GoString) : GoString := label ++ str " " ++ s ++ str "\n"

/-- The function `NewSOAPClient`. -/
def NewSOAPClient {H : Type} (url : GoString) (timeout : Int) (verboseMode : Bool) :
    SOAPClient H :=
  { hc := { Timeout := timeout }, url := url, verboseMode := verboseMode, headers := [] }

/-- The method `AddHeader`. -/
def SOAPClient.AddHeader {H : Type} (s : SOAPClient H) (header : H) : SOAPClient H :=
  { s with headers := s.headers ++ [header] }

/-- The envelope `Call` sends: the zero envelope, with a header holding a
copy of the client's header items when there are any, and the request as
the content of the body. -/
def SOAPClient.requestEnvelope {H Q : Type} (s : SOAPClient H) (request : Option Q) :
    SOAPEnvelope H Q :=
  let envelope : SOAPEnvelope H Q := SOAPEnvelope.zero
  let envelope : SOAPEnvelope H Q :=
    if s.headers.length > 0 then
      { envelope with Header := some { XMLName := ⟨[], []⟩, Items := s.headers } }
    else envelope
  { envelope with Body := { envelope.Body with Content := request } }

/-- The request `Call` sends, from the one `http.NewRequest` made: the three
header lines and `Close`. -/
def Request.prepare (req : Request) (soapAction : GoString) : Request :=
  let req := req.headerAdd (str "Content-Type") (str "text/xml; charset=\"utf-8\"")
  let req := req.headerAdd (str "SOAPAction") soapAction
  let req := req.headerSet (str "User-Agent") (str "euvv/0.1")
  { req with Close := true }

/-- The envelope `Call` decodes into: `new(SOAPEnvelope)` with the body
`SOAPBody{Content: response}`. -/
def responseEnvelope {H : Type} (response : Option Ptr) : SOAPEnvelope H Ptr :=
  { (SOAPEnvelope.zero : SOAPEnvelope H Ptr) with
    Body := { XMLName := ⟨[], []⟩, Fault := none, Content := response } }

/-- What `Call` prints before the request goes out. -/
def SOAPClient.requestDump {H : Type} (s : SOAPClient H) (buffer : GoString) : GoString :=
  if s.verboseMode then Println2 (str "Request dump:\n") buffer else []

/-- What `Call` has printed once a response that is not empty is in. -/
def SOAPClient.responseDump {H : Type} (s : SOAPClient H) (buffer rawbody : GoString) :
    GoString :=
  if s.verboseMode then s.requestDump buffer ++ Println2 (str "Response dump:\n") rawbody
  else s.requestDump buffer

/-- The method `(s *SOAPClient) Call(soapAction, request, response)`; `response`
is the pointer (or nil) and `heap` the values behind the pointers. -/
def SOAPClient.Call {H Q R : Type} (w : World H Q R) (s : SOAPClient H)
    (soapAction : GoString) (request : Option Q) (response : Option Ptr) (heap : Heap R) :
    CallResult R :=
  match w.Encode (s.requestEnvelope request) with
  | (_, some err) =>
    ⟨some (.errorString (str "SOAP message creation failed: " ++ err.Error)), heap, []⟩
  | (buffer, none) =>
  match w.Flush buffer with
  | (_, some err) =>
    ⟨some (.errorString (str "XML encoder flushing failed: " ++ err.Error)), heap, []⟩
  | (buffer, none) =>
  match w.NewRequest (str "POST") s.url buffer with
  | .error err =>
    ⟨some (.errorString (str "HTTP POST request creation failed: " ++ err.Error)), heap,
      s.requestDump buffer⟩
  | .ok req =>
  match w.Do s.hc (req.prepare soapAction) with
  | .error err =>
    ⟨some (.errorString (str "HTTP request execution failed: " ++ err.Error)), heap,
      s.requestDump buffer⟩
  | .ok (_, some err) =>
    ⟨some (.errorString (str "HTTP response body reading failed: " ++ err.Error)), heap,
      s.requestDump buffer⟩
  | .ok (rawbody, none) =>
  if rawbody.length = 0 then
    ⟨some .ErrEmptyResponse, heap, s.requestDump buffer⟩
  else
  match w.Unmarshal rawbody (responseEnvelope response) heap with
  | (some err, _, heap) =>
    ⟨some (.errorString (str "SOAP response unmarshalling failed: " ++ err.Error)), heap,
      s.responseDump buffer rawbody⟩
  | (none, respEnvelope, heap) =>
  match respEnvelope.Body.Fault with
  | some fault =>
    ⟨some (.errorString (str "Service returned error: " ++ fault.String)), heap,
      s.responseDump buffer rawbody⟩
  | none => ⟨none, heap, s.responseDump buffer rawbody⟩

/-! ## ecws.go: the service facade -/

def checkVatServiceURL : GoString :=
  str "http://ec.europa.eu/taxation_customs/vies/services/checkVatService"

/-- The struct `CheckVat`. -/
structure CheckVat where
  XMLName : Name
  CountryCode : GoString
  VatNumber : GoString
  deriving DecidableEq, Repr

/-- The type `time.Time`, of which only the zero value occurs. -/
structure Time where
  wall : Nat
  ext : Int
  deriving DecidableEq, Repr

/-- The struct `CheckVatResponse`. -/
structure CheckVatResponse where
  XMLName : Name
  CountryCode : GoString
  VatNumber : GoString
  RequestDate : Time
  Valid : Bool
  Name : GoString
  Address : GoString
  deriving DecidableEq, Repr

/-- The value `*new(CheckVatResponse)`. -/
def CheckVatResponse.zero : CheckVatResponse := ⟨⟨[], []⟩, [], [], ⟨0, 0⟩, false, [], []⟩

/-- The struct `CheckVatService`. -/
structure CheckVatService (H : Type) where
  client : SOAPClient H

/-- The function `NewCheckVatService`. -/
def NewCheckVatService {H : Type} (timeout : Int) (verboseMode : Bool) : CheckVatService H :=
  { client := NewSOAPClient checkVatServiceURL (wrapInt64 (timeout * Second)) verboseMode }

/-- The two results of `CheckVat` and the bytes written to standard output. -/
structure CheckVatResult where
  response : Option CheckVatResponse
  err : Option GoError
  stdout : GoString
  deriving DecidableEq, Repr

/-- The method `(service *CheckVatService) CheckVat(request)`. The response
made by `new` lives at address 0 of a heap of zero values. -/
def CheckVatService.CheckVat {H : Type} (w : World H CheckVat CheckVatResponse)
    (service : CheckVatService H) (request : CheckVat) : CheckVatResult :=
  let response : Ptr := 0
  let heap : Heap CheckVatResponse := fun _ => CheckVatResponse.zero
  let r := service.client.Call w [] (some request) (some response) heap
  match r.err with
  | some err => ⟨none, some err, r.stdout⟩
  | none => ⟨some (r.heap response), none, r.stdout⟩

/-! ## euvv.go: the validator -/

/-- The struct `VatValidator`. -/
structure VatValidator (H : Type) where
  formatValidationRequired : Bool
  ws : CheckVatService H

/-- The function `New`. -/
def New {H : Type} (formatValidationRequired : Bool) (timeout : Int) (verboseMode : Bool) :
    VatValidator H :=
  { formatValidationRequired := formatValidationRequired,
    ws := NewCheckVatService timeout verboseMode }

/-- The method `(vv *VatValidator) Split(s)`. -/
def VatValidator.Split {H : Type} (vv : VatValidator H) (s : GoString) : SplitResult :=
  SplitWith vatFormatValidator vv.formatValidationRequired s

/-- The two results of `Validate` and the bytes written to standard output. -/
structure ValidateResult where
  valid : Bool
  err : Option GoError
  stdout : GoString
  deriving DecidableEq, Repr

/-- The method `(vv *VatValidator) Validate(num)`; `none` is the run-time panic
of reading `resp.Valid` through a nil `resp`. -/
def VatValidator.Validate {H : Type} (w : World H CheckVat CheckVatResponse)
    (vv : VatValidator H) (num : GoString) : Option ValidateResult :=
  let sp := vv.Split num
  match sp.err with
  | some err => some ⟨false, some err, []⟩
  | none =>
    let r := vv.ws.CheckVat w { XMLName := ⟨[], []⟩, CountryCode := sp.country, VatNumber := sp.num }
    match r.err with
    | some err => some ⟨false, some err, r.stdout⟩
    | none =>
      match r.response with
      | some resp => some ⟨resp.Valid, none, r.stdout⟩
      | none => none

/-! ## An instance of the library, for the examples -/

/-- The character data directly inside the children named `loc` of an
element, the last such child winning; `none` when there is no such child.
`depth` is the nesting depth and `inField` says that the open child is one
named `loc`. -/
def fieldText (loc : GoString) : Nat → Bool → Option GoString → List Token → Option GoString
  | _, _, acc, [] => acc
  | 0, _, acc, .StartElement se :: ts =>
    if se.Name.Local = loc then fieldText loc 1 true (some []) ts
    else fieldText loc 1 false acc ts
  | depth + 1, inField, acc, .StartElement _ :: ts => fieldText loc (depth + 2) inField acc ts
  | depth, inField, acc, .EndElement _ :: ts =>
    fieldText loc (depth - 1) (inField && decide (depth ≠ 1)) acc ts
  | 1, true, some data, .CharData c :: ts => fieldText loc 1 true (some (data ++ c)) ts
  | depth, inField, acc, _ :: ts => fieldText loc depth inField acc ts

/-- The field `loc` of a struct after decoding: the text of the child, or the
old value when there is no such child. -/
def fieldOr (loc : String) (inner : List Token) (old : GoString) : GoString :=
  (fieldText (str loc) 0 false none inner).getD old

/-- White space of ASCII. -/
def isSpace (c : UInt8) : Bool := c.toNat ∈ [9, 10, 11, 12, 13, 32]

/-- The function `strings.TrimSpace`, for a string whose white space is
that of ASCII. -/
def TrimSpace (s : GoString) : GoString :=
  ((s.dropWhile isSpace).reverse.dropWhile isSpace).reverse

/-- The function `strconv.ParseBool`. -/
def parseBool (s : GoString) : Option Bool :=
  if s ∈ [str "1", str "t", str "T", str "TRUE", str "true", str "True"] then some true
  else if s ∈ [str "0", str "f", str "F", str "FALSE", str "false", str "False"] then some false
  else none

def checkVatTypes : GoString := str "urn:ec.europa.eu:taxud:vies:services:checkVat:types"

/-- Decoding an element into a `CheckVatResponse`: the element must carry the
name of the `XMLName` tag; the string fields come from the children of the
same name and `Valid` from the child `valid`: false when it is empty, else
its text without the white space around it, which must parse as a
boolean. -/
def unmarshalCheckVatResponse (se : StartElement) (inner : List Token)
    (r : CheckVatResponse) : CheckVatResponse × Option GoError :=
  if se.Name.Local ≠ str "checkVatResponse" then
    (r, some (.UnmarshalError
      (str "expected element type <checkVatResponse> but have <" ++ se.Name.Local ++ str ">")))
  else if se.Name.Space ≠ checkVatTypes then
    (r, some (.UnmarshalError
      (str "expected element <checkVatResponse> in name space " ++ checkVatTypes ++
        str " but have " ++ (if se.Name.Space = [] then str "no name space" else se.Name.Space))))
  else
    let r : CheckVatResponse :=
      { r with
        XMLName := se.Name,
        CountryCode := fieldOr "countryCode" inner r.CountryCode,
        VatNumber := fieldOr "vatNumber" inner r.VatNumber,
        Name := fieldOr "name" inner r.Name,
        Address := fieldOr "address" inner r.Address }
    match fieldText (str "valid") 0 false none inner with
    | none => (r, none)
    | some t =>
      if t.length = 0 then ({ r with Valid := false }, none)
      else
        match parseBool (TrimSpace t) with
        | some v => ({ r with Valid := v }, none)
        | none =>
          (r, some (.lib (str "strconv.ParseBool: parsing \"" ++ TrimSpace t ++
            str "\": invalid syntax")))

/-- Decoding an element into a `SOAPFault`: the four fields come from the
children of the same name. -/
def unmarshalSOAPFault (se : StartElement) (inner : List Token) (f : SOAPFault) :
    SOAPFault × Option GoError :=
  ({ XMLName := se.Name,
     Code := fieldOr "faultcode" inner f.Code,
     String := fieldOr "faultstring" inner f.String,
     Actor := fieldOr "faultactor" inner f.Actor,
     Detail := fieldOr "detail" inner f.Detail }, none)

/-- The tokens of the children that are closed, out of the content of an
element inside which the input breaks off; `pending` holds the tokens of the
child that is open. -/
def closedChildren : Nat → List Token → List Token → List Token
  | _, _, [] => []
  | depth, pending, .StartElement se :: ts =>
    closedChildren (depth + 1) (pending ++ [.StartElement se]) ts
  | 0, _, .EndElement _ :: _ => []
  | depth + 1, pending, .EndElement n :: ts =>
    if depth = 0 then pending ++ .EndElement n :: closedChildren 0 [] ts
    else closedChildren depth (pending ++ [.EndElement n]) ts
  | 0, _, t :: ts => t :: closedChildren 0 [] ts
  | depth + 1, pending, t :: ts => closedChildren (depth + 1) (pending ++ [t]) ts

/-- The value and the error of a decoding that the end of the input
interrupts: the children that are closed have been decoded, and the error is
theirs if they have one. -/
def interrupted {V : Type} (unmarshal : StartElement → List Token → V → V × Option GoError)
    (se : StartElement) (ts : List Token) (eof : GoError) (v : V) : V × GoError :=
  match unmarshal se (closedChildren 0 [] ts) v with
  | (v', some err) => (v', err)
  | (v', none) => (v', eof)

def exampleLib : XMLLib CheckVatResponse :=
  { unmarshalContent := unmarshalCheckVatResponse,
    unmarshalFault := unmarshalSOAPFault,
    contentBrokenOff := interrupted unmarshalCheckVatResponse,
    faultBrokenOff := interrupted unmarshalSOAPFault }

/-- The start tag of the body element. -/
def bodyStart : StartElement := ⟨⟨soapEnvelopeSpace, str "Body"⟩, []⟩

/-- A world in which requests are accepted, the service answers with the bytes
`rawbody`, and these bytes hold an envelope whose body element has the
tokens `body` after its start tag. -/
def exampleWorld (rawbody : GoString) (body : List Token) :
    World Unit CheckVat CheckVatResponse :=
  { Encode := fun env =>
      (match env.Body.Content with
        | some q => q.CountryCode ++ q.VatNumber
        | none => [], none),
    Flush := fun buffer => (buffer, none),
    NewRequest := fun method url buffer => .ok ⟨method, url, buffer, [], false⟩,
    Do := fun _ _ => .ok (rawbody, none),
    Unmarshal := fun _ env heap =>
      let r := env.Body.UnmarshalXML exampleLib heap ⟨body, .lib (str "EOF")⟩ bodyStart
      (r.err, { env with Body := r.b }, r.heap) }

/-- A text node. -/
def text (s : String) : Token := .CharData (str s)

/-- A start tag without attributes. -/
def startTag (space loc : String) : Token := .StartElement ⟨⟨str space, str loc⟩, []⟩

/-- An end tag. -/
def endTag (space loc : String) : Token := .EndElement ⟨str space, str loc⟩

def soapNS : String := "http://schemas.xmlsoap.org/soap/envelope/"

def typesNS : String := "urn:ec.europa.eu:taxud:vies:services:checkVat:types"

/-- The rest of a body that holds a fault with the message INVALID_INPUT. -/
def faultBody : List Token :=
  [ startTag soapNS "Fault",
    startTag "" "faultcode", text "env:Server", endTag "" "faultcode",
    startTag "" "faultstring", text "INVALID_INPUT", endTag "" "faultstring",
    endTag soapNS "Fault",
    endTag soapNS "Body" ]

/-- The rest of a body that holds a fault whose detail is an element. -/
def structuredFaultBody : List Token :=
  [ startTag soapNS "Fault",
    startTag "" "faultcode", text "env:Server", endTag "" "faultcode",
    startTag "" "faultstring", text "INVALID_INPUT", endTag "" "faultstring",
    startTag "" "detail",
    startTag "" "reason", text "bad", endTag "" "reason",
    endTag "" "detail",
    endTag soapNS "Fault",
    endTag soapNS "Body" ]

/-- The rest of a body that holds the answer to a valid number. -/
def validBody : List Token :=
  [ startTag typesNS "checkVatResponse",
    startTag typesNS "countryCode", text "IT", endTag typesNS "countryCode",
    startTag typesNS "vatNumber", text "06700351213", endTag typesNS "vatNumber",
    startTag typesNS "valid", text "true", endTag typesNS "valid",
    endTag typesNS "checkVatResponse",
    endTag soapNS "Body" ]

/-- The rest of a body with two children, neither a fault and neither a
`checkVatResponse`. -/
def twoChildrenBody : List Token :=
  [ startTag "" "a", endTag "" "a", startTag "" "b", endTag "" "b", endTag soapNS "Body" ]

/-- The rest of a body without children. -/
def emptyBody : List Token := [ text "\n", endTag soapNS "Body" ]

/-- A heap of zero responses. -/
def zeroHeap : Heap CheckVatResponse := fun _ => CheckVatResponse.zero

/-- The body `Call` hands to the decoder, its content pointing to address 0. -/
def freshBody : SOAPBody Ptr := ⟨⟨[], []⟩, none, some 0⟩

/-! ## Predicates used in the statements -/

/-- A token that opens or closes an element. -/
def Token.isElement : Token → Bool
  | .StartElement _ => true
  | .EndElement _ => true
  | _ => false

/-- The first child element of an element whose start tag has just been read:
its start tag, the tokens of its content, and the tokens after its end tag.
`none` when the element ends, or the input, before a child element opens,
and when the child element is not closed. -/
def firstChild : List Token → Option (StartElement × List Token × List Token)
  | [] => none
  | .StartElement se :: ts =>
    match splitElement 0 ts with
    | some (inner, rest) => some (se, inner, rest)
    | none => none
  | .EndElement _ :: _ => none
  | _ :: ts => firstChild ts

/-- The tokens after the end tag of an element that has no child element
any more: `none` when a child element opens first, or the input ends. -/
def closing : List Token → Option (List Token)
  | [] => none
  | .StartElement _ :: _ => none
  | .EndElement _ :: ts => some ts
  | _ :: ts => closing ts

/-- A child element that holds text only: the character data in front of it,
its name and attributes, and the character data inside it. -/
structure TextChild where
  gap : List GoString
  Name : Name
  Attr : List Attr
  text : List GoString

/-- The tokens of a child element that holds text only. -/
def TextChild.tokens (c : TextChild) : List Token :=
  c.gap.map .CharData ++
    .StartElement ⟨c.Name, c.Attr⟩ :: (c.text.map .CharData ++ [.EndElement c.Name])

/-- The content of an element whose children hold text only, with the
character data after the last of them. -/
def textChildren (kids : List TextChild) (trailing : List GoString) : List Token :=
  kids.flatMap TextChild.tokens ++ trailing.map .CharData

/-- The text of the last child named `loc`, and the empty string when there
is no such child. -/
def lastText (loc : GoString) (kids : List TextChild) : GoString :=
  match kids.reverse.find? (fun c => c.Name.Local = loc) with
  | some c => c.text.flatten
  | none => []

/-- The loop of `UnmarshalXML` entered with fuel above the number of tokens
left. -/
def SOAPBody.UnmarshalXML.run {R : Type} (lib : XMLLib R) (consumed : Bool)
    (b : SOAPBody Ptr) (heap : Heap R) (d : Decoder) : UnmarshalResult R :=
  SOAPBody.UnmarshalXML.loop lib (d.tokens.length + 1) consumed b heap d

/-- The test of `UnmarshalXML` for the fault element. -/
def StartElement.isFault (se : StartElement) : Prop :=
  se.Name.Space = soapEnvelopeSpace ∧ se.Name.Local = str "Fault"

instance (se : StartElement) : Decidable se.isFault := by
  unfold StartElement.isFault
  infer_instance

/-! ## Theorems: `Split` -/

theorem FormatMap.index_eq_none_iff (m : FormatMap) (k : GoString) :
    m.index k = none ↔ k ∉ m.keys := by
  induction m with
  | nil => simp [FormatMap.index, FormatMap.keys]
  | cons kv rest ih =>
    obtain ⟨k', f⟩ := kv
    by_cases hk : k' = k
    · simp [FormatMap.index, FormatMap.keys, hk]
    · have hk' : ¬ k = k' := fun h => hk h.symm
      simpa [FormatMap.index, FormatMap.keys, hk, hk'] using ih

theorem FormatMap.index_some_mem (m : FormatMap) (k : GoString) (f : Option (GoString → Bool))
    (h : m.index k = some f) : (k, f) ∈ m := by
  induction m with
  | nil => simp [FormatMap.index] at h
  | cons kv rest ih =>
    obtain ⟨k', f'⟩ := kv
    by_cases hk : k' = k
    · simp [FormatMap.index, hk] at h
      simp [hk, h]
    · simp [FormatMap.index, hk] at h
      exact List.mem_cons_of_mem _ (ih h)

/-- Every checker of the registry is a function that accepts every number. -/
theorem vatFormatValidator_accepts (k : GoString) (f : Option (GoString → Bool))
    (h : (k, f) ∈ vatFormatValidator) : ∃ g, f = some g ∧ ∀ x, g x = true := by
  simp only [vatFormatValidator, List.mem_cons, Prod.mk.injEq, List.mem_singleton,
    List.not_mem_nil, or_false] at h
  rcases h with h | h | h | h | h | h | h <;> exact ⟨_, h.2, fun _ => rfl⟩

theorem vatFormatValidator_keys :
    vatFormatValidator.keys =
      [str "CZ", str "DE", str "SE", str "NL", str "GB", str "PL", str "IT"] := rfl

/-- The length check of `Split` comes before everything else. -/
theorem SplitWith_short (registry : FormatMap) (required : Bool) (s : GoString)
    (h : s.length < 3) :
    SplitWith registry required s = ⟨[], [], some GoError.ErrInvalidInputData⟩ := by
  simp [SplitWith, h]

/-- A prefix that is not a key of the map is reported as unknown. -/
theorem SplitWith_unknown (registry : FormatMap) (s : GoString) (h : 3 ≤ s.length)
    (hk : s.take 2 ∉ registry.keys) :
    SplitWith registry true s = ⟨[], [], some GoError.ErrUnknownCountryPrefix⟩ := by
  have hlt : ¬ s.length < 3 := by omega
  have hidx : registry.index (s.take 2) = none := (FormatMap.index_eq_none_iff _ _).2 hk
  simp [SplitWith, hlt, hidx]

/-- C1: for every validator, with format pre-validation enabled or disabled,
and every string shorter than 3 bytes (the empty string included), Split
returns ("", "", ErrInvalidInputData), whatever the first bytes are. -/
theorem Split_short {H : Type} (vv : VatValidator H) (s : GoString) (h : s.length < 3) :
    vv.Split s = ⟨[], [], some GoError.ErrInvalidInputData⟩ := by
  unfold VatValidator.Split
  exact SplitWith_short vatFormatValidator vv.formatValidationRequired s h

theorem Split_short_witness :
    (str "CZ").length < 3 ∧
      (New true 3 false : VatValidator Unit).Split (str "CZ") =
        ⟨[], [], some GoError.ErrInvalidInputData⟩ :=
  ⟨by decide, Split_short (New true 3 false) (str "CZ") (by decide)⟩

/-- C2: for every validator with format pre-validation disabled and every
string of at least 3 bytes, Split returns (s[0:2], s[2:], nil); the result
is the same whatever the country registry holds (it is not consulted); the
two parts concatenate back to s, the prefix is exactly 2 bytes long and the
number part is not empty. -/
theorem Split_disabled {H : Type} (vv : VatValidator H) (s : GoString)
    (hv : vv.formatValidationRequired = false) (h : 3 ≤ s.length) :
    vv.Split s = ⟨s.take 2, s.drop 2, none⟩ ∧
      (∀ registry : FormatMap, SplitWith registry false s = ⟨s.take 2, s.drop 2, none⟩) ∧
      (vv.Split s).country ++ (vv.Split s).num = s ∧
      (vv.Split s).country.length = 2 ∧
      (vv.Split s).num ≠ [] := by
  have hlt : ¬ s.length < 3 := by omega
  have hsplit : ∀ registry : FormatMap,
      SplitWith registry false s = ⟨s.take 2, s.drop 2, none⟩ := by
    intro registry
    simp [SplitWith, hlt]
  have hS : vv.Split s = ⟨s.take 2, s.drop 2, none⟩ := by
    rw [VatValidator.Split, hv]
    exact hsplit _
  refine ⟨hS, hsplit, ?_, ?_, ?_⟩
  · rw [hS]
    exact List.take_append_drop 2 s
  · rw [hS]
    simp only [List.length_take]
    omega
  · rw [hS]
    intro hnil
    have hlen : (s.drop 2).length = 0 := by
      simp only at hnil
      rw [hnil]
      rfl
    simp only [List.length_drop] at hlen
    omega

theorem Split_disabled_witness :
    (New false 3 false : VatValidator Unit).Split (str "IT06700351213") =
      ⟨str "IT", str "06700351213", none⟩ :=
  (Split_disabled (New false 3 false) (str "IT06700351213") rfl (by decide)).1

/-- C3: for every validator with format pre-validation enabled and every
string of at least 3 bytes whose first two bytes are not a key of the
registry vatFormatValidator, Split returns ("", "", ErrUnknownCountryPrefix). -/
theorem Split_unknown_country {H : Type} (vv : VatValidator H) (s : GoString)
    (hv : vv.formatValidationRequired = true) (h : 3 ≤ s.length)
    (hk : s.take 2 ∉ vatFormatValidator.keys) :
    vv.Split s = ⟨[], [], some GoError.ErrUnknownCountryPrefix⟩ := by
  unfold VatValidator.Split
  rw [hv]
  exact SplitWith_unknown vatFormatValidator s h hk

theorem Split_unknown_country_witness :
    (New true 3 false : VatValidator Unit).Split (str "US12345678") =
        ⟨[], [], some GoError.ErrUnknownCountryPrefix⟩ ∧
      (New true 3 false : VatValidator Unit).Split (str "it06700351213") =
        ⟨[], [], some GoError.ErrUnknownCountryPrefix⟩ :=
  ⟨Split_unknown_country (New true 3 false) (str "US12345678") rfl (by decide) (by decide),
   Split_unknown_country (New true 3 false) (str "it06700351213") rfl (by decide) (by decide)⟩

/-- C4: for every validator with format pre-validation enabled and every
string s, Split succeeds (err == nil) if and only if len(s) >= 3 and s[0:2]
is one of CZ, DE, SE, NL, GB, PL, IT; when it succeeds it returns
(s[0:2], s[2:]); and ErrInvalidNumberFormat is returned for no input. -/
theorem Split_enabled {H : Type} (vv : VatValidator H) (s : GoString)
    (hv : vv.formatValidationRequired = true) :
    ((vv.Split s).err = none ↔
        3 ≤ s.length ∧
          s.take 2 ∈ [str "CZ", str "DE", str "SE", str "NL", str "GB", str "PL", str "IT"]) ∧
      ((vv.Split s).err = none →
        (vv.Split s).country = s.take 2 ∧ (vv.Split s).num = s.drop 2) ∧
      (vv.Split s).err ≠ some GoError.ErrInvalidNumberFormat := by
  rw [← vatFormatValidator_keys]
  by_cases hlt : s.length < 3
  · have hS : vv.Split s = ⟨[], [], some GoError.ErrInvalidInputData⟩ :=
      SplitWith_short vatFormatValidator vv.formatValidationRequired s hlt
    rw [hS]
    refine ⟨⟨fun h => ?_, fun h => ?_⟩, fun h => ?_, ?_⟩
    · simp at h
    · omega
    · simp at h
    · simp
  · by_cases hk : s.take 2 ∈ vatFormatValidator.keys
    · have hne : vatFormatValidator.index (s.take 2) ≠ none := fun hn =>
        (FormatMap.index_eq_none_iff _ _).1 hn hk
      obtain ⟨f, hf⟩ := Option.ne_none_iff_exists'.1 hne
      obtain ⟨g, hg, hacc⟩ := vatFormatValidator_accepts _ _ (FormatMap.index_some_mem _ _ _ hf)
      have hS : vv.Split s = ⟨s.take 2, s.drop 2, none⟩ := by
        simp [VatValidator.Split, SplitWith, hlt, hv, hf, hg, hacc]
      rw [hS]
      refine ⟨⟨fun _ => ⟨by omega, hk⟩, fun _ => rfl⟩, fun _ => ⟨rfl, rfl⟩, ?_⟩
      simp
    · have hS : vv.Split s = ⟨[], [], some GoError.ErrUnknownCountryPrefix⟩ := by
        unfold VatValidator.Split
        rw [hv]
        exact SplitWith_unknown vatFormatValidator s (by omega) hk
      rw [hS]
      refine ⟨⟨fun h => ?_, fun h => (hk h.2).elim⟩, fun h => ?_, ?_⟩
      · simp at h
      · simp at h
      · simp

theorem Split_enabled_witness :
    (New true 3 false : VatValidator Unit).Split (str "IT06700351213") =
      ⟨str "IT", str "06700351213", none⟩ := by
  have h := Split_enabled (New true 3 false : VatValidator Unit) (str "IT06700351213") rfl
  have herr := h.1.2 ⟨by decide, by decide⟩
  have hparts := h.2.1 herr
  exact SplitResult.ext hparts.1 hparts.2 herr

/-! ## Theorems: `SOAPBody.UnmarshalXML` -/

theorem splitElement_length (depth : Nat) (ts inner rest : List Token)
    (h : splitElement depth ts = some (inner, rest)) :
    inner.length + rest.length + 1 = ts.length := by
  induction ts generalizing depth inner rest with
  | nil => simp [splitElement] at h
  | cons t ts ih =>
    cases t with
    | StartElement se =>
      simp only [splitElement] at h
      split at h
      · next i r hs =>
        simp only [Option.some.injEq, Prod.mk.injEq] at h
        obtain ⟨rfl, rfl⟩ := h
        have := ih _ _ _ hs
        simp only [List.length_cons]
        omega
      · simp at h
    | EndElement n =>
      cases depth with
      | zero =>
        simp only [splitElement, Option.some.injEq, Prod.mk.injEq] at h
        obtain ⟨rfl, rfl⟩ := h
        simp
      | succ depth =>
        simp only [splitElement] at h
        split at h
        · next i r hs =>
          simp only [Option.some.injEq, Prod.mk.injEq] at h
          obtain ⟨rfl, rfl⟩ := h
          have := ih _ _ _ hs
          simp only [List.length_cons]
          omega
        · simp at h
    | CharData _ | Comment _ | ProcInst _ _ | Directive _ =>
      simp only [splitElement] at h
      split at h
      · next i r hs =>
        simp only [Option.some.injEq, Prod.mk.injEq] at h
        obtain ⟨rfl, rfl⟩ := h
        have := ih _ _ _ hs
        simp only [List.length_cons]
        omega
      · simp at h

/-- The decoder after `DecodeElement` without error has fewer tokens left. -/
theorem DecodeElement_tokens_lt {V : Type}
    (unmarshal : StartElement → List Token → V → V × Option GoError)
    (brokenOff : StartElement → List Token → GoError → V → V × GoError)
    (d : Decoder) (v : V) (se : StartElement)
    (h : (d.DecodeElement unmarshal brokenOff v se).2.1 = none) :
    (d.DecodeElement unmarshal brokenOff v se).2.2.tokens.length < d.tokens.length := by
  unfold Decoder.DecodeElement at h ⊢
  split
  · next inner rest hs =>
    have := splitElement_length _ _ _ _ hs
    simp only
    omega
  · next hs =>
    rw [hs] at h
    simp at h

section Loop

open SOAPBody.UnmarshalXML

theorem loop_nil {R : Type} (lib : XMLLib R) (fuel : Nat) (c : Bool) (b : SOAPBody Ptr)
    (heap : Heap R) (eof : GoError) :
    SOAPBody.UnmarshalXML.loop lib (fuel + 1) c b heap ⟨[], eof⟩ =
      ⟨some eof, b, heap, ⟨[], eof⟩⟩ := by
  simp [SOAPBody.UnmarshalXML.loop, Decoder.Token]

theorem loop_end {R : Type} (lib : XMLLib R) (fuel : Nat) (c : Bool) (b : SOAPBody Ptr)
    (heap : Heap R) (eof : GoError) (n : Name) (ts : List Token) :
    SOAPBody.UnmarshalXML.loop lib (fuel + 1) c b heap ⟨.EndElement n :: ts, eof⟩ =
      ⟨none, b, heap, ⟨ts, eof⟩⟩ := by
  simp [SOAPBody.UnmarshalXML.loop, Decoder.Token]

theorem loop_skip {R : Type} (lib : XMLLib R) (fuel : Nat) (c : Bool) (b : SOAPBody Ptr)
    (heap : Heap R) (eof : GoError) (t : Token) (ts : List Token) (ht : t.isElement = false) :
    SOAPBody.UnmarshalXML.loop lib (fuel + 1) c b heap ⟨t :: ts, eof⟩ =
      SOAPBody.UnmarshalXML.loop lib fuel c b heap ⟨ts, eof⟩ := by
  cases t <;> simp [Token.isElement] at ht <;> simp only [SOAPBody.UnmarshalXML.loop, Decoder.Token]

theorem loop_start {R : Type} (lib : XMLLib R) (fuel : Nat) (c : Bool) (b : SOAPBody Ptr)
    (heap : Heap R) (eof : GoError) (se : StartElement) (ts : List Token) :
    SOAPBody.UnmarshalXML.loop lib (fuel + 1) c b heap ⟨.StartElement se :: ts, eof⟩ =
      if c = true then ⟨some multipleElements, b, heap, ⟨ts, eof⟩⟩
      else if se.isFault then
        let r := Decoder.DecodeElement lib.unmarshalFault lib.faultBrokenOff ⟨ts, eof⟩
          SOAPFault.zero se
        match r.2.1 with
        | some err => ⟨some err, { b with Fault := some r.1, Content := none }, heap, r.2.2⟩
        | none =>
          SOAPBody.UnmarshalXML.loop lib fuel true { b with Fault := some r.1, Content := none }
            heap r.2.2
      else
        match b.Content with
        | none => ⟨some (.lib (str "non-pointer passed to Unmarshal")), b, heap, ⟨ts, eof⟩⟩
        | some p =>
          let r := Decoder.DecodeElement lib.unmarshalContent lib.contentBrokenOff ⟨ts, eof⟩
            (heap p) se
          match r.2.1 with
          | some err => ⟨some err, b, Function.update heap p r.1, r.2.2⟩
          | none =>
            SOAPBody.UnmarshalXML.loop lib fuel true b (Function.update heap p r.1) r.2.2 := by
  rfl

theorem loop_fuel {R : Type} (lib : XMLLib R) :
    ∀ (n fuel : Nat) (c : Bool) (b : SOAPBody Ptr) (heap : Heap R) (d : Decoder),
      d.tokens.length ≤ n → d.tokens.length < fuel →
      SOAPBody.UnmarshalXML.loop lib fuel c b heap d =
        SOAPBody.UnmarshalXML.loop lib (d.tokens.length + 1) c b heap d := by
  intro n
  induction n with
  | zero =>
    intro fuel c b heap d hn hf
    obtain ⟨tokens, eof⟩ := d
    have : tokens = [] := List.length_eq_zero.1 (by simpa using hn)
    subst this
    cases fuel with
    | zero => simp at hf
    | succ fuel => simp [loop_nil]
  | succ n ih =>
    intro fuel c b heap d hn hf
    obtain ⟨tokens, eof⟩ := d
    cases fuel with
    | zero => simp at hf
    | succ fuel =>
      cases tokens with
      | nil => simp [loop_nil]
      | cons t ts =>
        simp only [List.length_cons] at hn hf ⊢
        have hts : ts.length ≤ n := by omega
        have hfl : ts.length < fuel := by omega
        cases t with
        | StartElement se =>
          rw [loop_start, loop_start]
          split
          · rfl
          · split
            · simp only
              split
              · rfl
              · next hdec =>
                have hlt := DecodeElement_tokens_lt _ _ _ _ _ hdec
                simp only at hlt
                rw [ih fuel _ _ _ _ (by omega) (by omega),
                  ih (ts.length + 1) _ _ _ _ (by omega) (by omega)]
            · split
              · rfl
              · simp only
                split
                · rfl
                · next hdec =>
                  have hlt := DecodeElement_tokens_lt _ _ _ _ _ hdec
                  simp only at hlt
                  rw [ih fuel _ _ _ _ (by omega) (by omega),
                    ih (ts.length + 1) _ _ _ _ (by omega) (by omega)]
        | EndElement nm => rw [loop_end, loop_end]
        | CharData x =>
          rw [loop_skip lib fuel c b heap eof (.CharData x) ts rfl,
            loop_skip lib (ts.length + 1) c b heap eof (.CharData x) ts rfl]
          exact ih fuel c b heap ⟨ts, eof⟩ hts hfl
        | Comment x =>
          rw [loop_skip lib fuel c b heap eof (.Comment x) ts rfl,
            loop_skip lib (ts.length + 1) c b heap eof (.Comment x) ts rfl]
          exact ih fuel c b heap ⟨ts, eof⟩ hts hfl
        | ProcInst x y =>
          rw [loop_skip lib fuel c b heap eof (.ProcInst x y) ts rfl,
            loop_skip lib (ts.length + 1) c b heap eof (.ProcInst x y) ts rfl]
          exact ih fuel c b heap ⟨ts, eof⟩ hts hfl
        | Directive x =>
          rw [loop_skip lib fuel c b heap eof (.Directive x) ts rfl,
            loop_skip lib (ts.length + 1) c b heap eof (.Directive x) ts rfl]
          exact ih fuel c b heap ⟨ts, eof⟩ hts hfl

variable {R : Type} (lib : XMLLib R)

theorem run_nil (c : Bool) (b : SOAPBody Ptr) (heap : Heap R) (eof : GoError) :
    run lib c b heap ⟨[], eof⟩ = ⟨some eof, b, heap, ⟨[], eof⟩⟩ :=
  loop_nil lib 0 c b heap eof

theorem run_end (c : Bool) (b : SOAPBody Ptr) (heap : Heap R) (eof : GoError) (n : Name)
    (ts : List Token) :
    run lib c b heap ⟨.EndElement n :: ts, eof⟩ = ⟨none, b, heap, ⟨ts, eof⟩⟩ :=
  loop_end lib _ c b heap eof n ts

theorem run_skip (c : Bool) (b : SOAPBody Ptr) (heap : Heap R) (eof : GoError) (t : Token)
    (ts : List Token) (ht : t.isElement = false) :
    run lib c b heap ⟨t :: ts, eof⟩ = run lib c b heap ⟨ts, eof⟩ :=
  loop_skip lib _ c b heap eof t ts ht

theorem run_start_consumed (b : SOAPBody Ptr) (heap : Heap R) (eof : GoError)
    (se : StartElement) (ts : List Token) :
    run lib true b heap ⟨.StartElement se :: ts, eof⟩ =
      ⟨some multipleElements, b, heap, ⟨ts, eof⟩⟩ := by
  unfold run
  rw [loop_start]
  simp

/-- The first child element is the fault element. -/
theorem run_start_fault (b : SOAPBody Ptr) (heap : Heap R) (eof : GoError)
    (se : StartElement) (ts : List Token) (hf : se.isFault) :
    run lib false b heap ⟨.StartElement se :: ts, eof⟩ =
      match splitElement 0 ts with
      | none =>
        ⟨some (lib.faultBrokenOff se ts eof SOAPFault.zero).2,
          { b with Fault := some (lib.faultBrokenOff se ts eof SOAPFault.zero).1,
                   Content := none }, heap, ⟨[], eof⟩⟩
      | some (inner, rest) =>
        match (lib.unmarshalFault se inner SOAPFault.zero).2 with
        | some err =>
          ⟨some err, { b with Fault := some (lib.unmarshalFault se inner SOAPFault.zero).1,
                              Content := none }, heap, ⟨rest, eof⟩⟩
        | none =>
          run lib true { b with Fault := some (lib.unmarshalFault se inner SOAPFault.zero).1,
                                Content := none } heap ⟨rest, eof⟩ := by
  unfold run
  simp only [List.length_cons]
  rw [loop_start]
  simp only [hf, if_true, Bool.false_eq_true, if_false]
  cases hs : splitElement 0 ts with
  | none => simp [Decoder.DecodeElement, hs]
  | some ir =>
    obtain ⟨inner, rest⟩ := ir
    have hlen := splitElement_length _ _ _ _ hs
    cases hu : (lib.unmarshalFault se inner SOAPFault.zero).2 with
    | some err => simp [Decoder.DecodeElement, hs, hu]
    | none =>
      simp only [Decoder.DecodeElement, hs, hu]
      exact loop_fuel lib rest.length _ _ _ _ ⟨rest, eof⟩ (le_refl _) (by simp only; omega)

/-- The first child element is not the fault element. -/
theorem run_start_content (b : SOAPBody Ptr) (heap : Heap R) (eof : GoError)
    (se : StartElement) (ts : List Token) (p : Ptr) (hf : ¬ se.isFault)
    (hp : b.Content = some p) :
    run lib false b heap ⟨.StartElement se :: ts, eof⟩ =
      match splitElement 0 ts with
      | none =>
        ⟨some (lib.contentBrokenOff se ts eof (heap p)).2, b,
          Function.update heap p (lib.contentBrokenOff se ts eof (heap p)).1, ⟨[], eof⟩⟩
      | some (inner, rest) =>
        match (lib.unmarshalContent se inner (heap p)).2 with
        | some err =>
          ⟨some err, b, Function.update heap p (lib.unmarshalContent se inner (heap p)).1,
            ⟨rest, eof⟩⟩
        | none =>
          run lib true b (Function.update heap p (lib.unmarshalContent se inner (heap p)).1)
            ⟨rest, eof⟩ := by
  unfold run
  simp only [List.length_cons]
  rw [loop_start]
  simp only [hf, if_false, Bool.false_eq_true, hp]
  cases hs : splitElement 0 ts with
  | none => simp [Decoder.DecodeElement, hs]
  | some ir =>
    obtain ⟨inner, rest⟩ := ir
    have hlen := splitElement_length _ _ _ _ hs
    cases hu : (lib.unmarshalContent se inner (heap p)).2 with
    | some err => simp [Decoder.DecodeElement, hs, hu]
    | none =>
      simp only [Decoder.DecodeElement, hs, hu]
      exact loop_fuel lib rest.length _ _ _ _ ⟨rest, eof⟩ (le_refl _) (by simp only; omega)


theorem run_true_closing (b : SOAPBody Ptr) (heap : Heap R) (eof : GoError)
    (ts rest : List Token) (h : closing ts = some rest) :
    run lib true b heap ⟨ts, eof⟩ = ⟨none, b, heap, ⟨rest, eof⟩⟩ := by
  induction ts with
  | nil => simp [closing] at h
  | cons t ts ih =>
    cases t with
    | StartElement se => simp [closing] at h
    | EndElement n =>
      simp only [closing, Option.some.injEq] at h
      rw [run_end, h]
    | CharData x => rw [run_skip lib _ _ _ _ (.CharData x) _ rfl]; exact ih h
    | Comment x => rw [run_skip lib _ _ _ _ (.Comment x) _ rfl]; exact ih h
    | ProcInst x y => rw [run_skip lib _ _ _ _ (.ProcInst x y) _ rfl]; exact ih h
    | Directive x => rw [run_skip lib _ _ _ _ (.Directive x) _ rfl]; exact ih h

theorem run_true_firstChild (b : SOAPBody Ptr) (heap : Heap R) (eof : GoError)
    (ts : List Token) (c : StartElement × List Token × List Token)
    (h : firstChild ts = some c) :
    (run lib true b heap ⟨ts, eof⟩).err = some multipleElements := by
  induction ts with
  | nil => simp [firstChild] at h
  | cons t ts ih =>
    cases t with
    | StartElement se => rw [run_start_consumed]
    | EndElement n => simp [firstChild] at h
    | CharData x => rw [run_skip lib _ _ _ _ (.CharData x) _ rfl]; exact ih h
    | Comment x => rw [run_skip lib _ _ _ _ (.Comment x) _ rfl]; exact ih h
    | ProcInst x y => rw [run_skip lib _ _ _ _ (.ProcInst x y) _ rfl]; exact ih h
    | Directive x => rw [run_skip lib _ _ _ _ (.Directive x) _ rfl]; exact ih h

/-- With a child element already consumed, the loop ends without error only
at the end tag, and changes nothing on the way. -/
theorem run_true_success (b : SOAPBody Ptr) (heap : Heap R) (eof : GoError)
    (ts : List Token) (h : (run lib true b heap ⟨ts, eof⟩).err = none) :
    ∃ rest, closing ts = some rest ∧
      run lib true b heap ⟨ts, eof⟩ = ⟨none, b, heap, ⟨rest, eof⟩⟩ := by
  induction ts with
  | nil => rw [run_nil] at h; simp at h
  | cons t ts ih =>
    cases t with
    | StartElement se => rw [run_start_consumed] at h; simp at h
    | EndElement n => exact ⟨ts, rfl, run_end lib _ _ _ _ _ _⟩
    | CharData x =>
      rw [run_skip lib _ _ _ _ (.CharData x) _ rfl] at h ⊢
      exact ih h
    | Comment x =>
      rw [run_skip lib _ _ _ _ (.Comment x) _ rfl] at h ⊢
      exact ih h
    | ProcInst x y =>
      rw [run_skip lib _ _ _ _ (.ProcInst x y) _ rfl] at h ⊢
      exact ih h
    | Directive x =>
      rw [run_skip lib _ _ _ _ (.Directive x) _ rfl] at h ⊢
      exact ih h

theorem run_false_closing (b : SOAPBody Ptr) (heap : Heap R) (eof : GoError)
    (ts rest : List Token) (h : closing ts = some rest) :
    run lib false b heap ⟨ts, eof⟩ = ⟨none, b, heap, ⟨rest, eof⟩⟩ := by
  induction ts with
  | nil => simp [closing] at h
  | cons t ts ih =>
    cases t with
    | StartElement se => simp [closing] at h
    | EndElement n =>
      simp only [closing, Option.some.injEq] at h
      rw [run_end, h]
    | CharData x => rw [run_skip lib _ _ _ _ (.CharData x) _ rfl]; exact ih h
    | Comment x => rw [run_skip lib _ _ _ _ (.Comment x) _ rfl]; exact ih h
    | ProcInst x y => rw [run_skip lib _ _ _ _ (.ProcInst x y) _ rfl]; exact ih h
    | Directive x => rw [run_skip lib _ _ _ _ (.Directive x) _ rfl]; exact ih h

/-- The loop at a body whose first child element is the fault element. -/
theorem run_false_fault (b : SOAPBody Ptr) (heap : Heap R) (eof : GoError)
    (ts : List Token) (se : StartElement) (inner after : List Token)
    (h : firstChild ts = some (se, inner, after)) (hf : se.isFault) :
    run lib false b heap ⟨ts, eof⟩ =
      match (lib.unmarshalFault se inner SOAPFault.zero).2 with
      | some err =>
        ⟨some err, { b with Fault := some (lib.unmarshalFault se inner SOAPFault.zero).1,
                            Content := none }, heap, ⟨after, eof⟩⟩
      | none =>
        run lib true { b with Fault := some (lib.unmarshalFault se inner SOAPFault.zero).1,
                              Content := none } heap ⟨after, eof⟩ := by
  induction ts with
  | nil => simp [firstChild] at h
  | cons t ts ih =>
    cases t with
    | StartElement se' =>
      simp only [firstChild] at h
      split at h
      · next i r hs =>
        simp only [Option.some.injEq, Prod.mk.injEq] at h
        obtain ⟨rfl, rfl, rfl⟩ := h
        rw [run_start_fault lib _ _ _ _ _ hf, hs]
      · simp at h
    | EndElement n => simp [firstChild] at h
    | CharData x => rw [run_skip lib _ _ _ _ (.CharData x) _ rfl]; exact ih h
    | Comment x => rw [run_skip lib _ _ _ _ (.Comment x) _ rfl]; exact ih h
    | ProcInst x y => rw [run_skip lib _ _ _ _ (.ProcInst x y) _ rfl]; exact ih h
    | Directive x => rw [run_skip lib _ _ _ _ (.Directive x) _ rfl]; exact ih h

/-- The loop at a body whose first child element is not the fault element. -/
theorem run_false_content (b : SOAPBody Ptr) (heap : Heap R) (eof : GoError)
    (ts : List Token) (se : StartElement) (inner after : List Token) (p : Ptr)
    (h : firstChild ts = some (se, inner, after)) (hf : ¬ se.isFault)
    (hp : b.Content = some p) :
    run lib false b heap ⟨ts, eof⟩ =
      match (lib.unmarshalContent se inner (heap p)).2 with
      | some err =>
        ⟨some err, b, Function.update heap p (lib.unmarshalContent se inner (heap p)).1,
          ⟨after, eof⟩⟩
      | none =>
        run lib true b (Function.update heap p (lib.unmarshalContent se inner (heap p)).1)
          ⟨after, eof⟩ := by
  induction ts with
  | nil => simp [firstChild] at h
  | cons t ts ih =>
    cases t with
    | StartElement se' =>
      simp only [firstChild] at h
      split at h
      · next i r hs =>
        simp only [Option.some.injEq, Prod.mk.injEq] at h
        obtain ⟨rfl, rfl, rfl⟩ := h
        rw [run_start_content lib _ _ _ _ _ p hf hp, hs]
      · simp at h
    | EndElement n => simp [firstChild] at h
    | CharData x => rw [run_skip lib _ _ _ _ (.CharData x) _ rfl]; exact ih h
    | Comment x => rw [run_skip lib _ _ _ _ (.Comment x) _ rfl]; exact ih h
    | ProcInst x y => rw [run_skip lib _ _ _ _ (.ProcInst x y) _ rfl]; exact ih h
    | Directive x => rw [run_skip lib _ _ _ _ (.Directive x) _ rfl]; exact ih h

/-- The loop ends without error only at a body without child element or with
a first child element that is closed. -/
theorem run_false_success (b : SOAPBody Ptr) (heap : Heap R) (eof : GoError)
    (ts : List Token) (h : (run lib false b heap ⟨ts, eof⟩).err = none) :
    (∃ rest, closing ts = some rest) ∨ (∃ c, firstChild ts = some c) := by
  induction ts with
  | nil => rw [run_nil] at h; simp at h
  | cons t ts ih =>
    cases t with
    | StartElement se =>
      right
      simp only [firstChild]
      cases hs : splitElement 0 ts with
      | some ir => exact ⟨_, rfl⟩
      | none =>
        exfalso
        by_cases hf : se.isFault
        · rw [run_start_fault lib _ _ _ _ _ hf, hs] at h
          simp at h
        · cases hp : b.Content with
          | none =>
            unfold run at h
            simp only [List.length_cons] at h
            rw [loop_start] at h
            simp [hf, hp] at h
          | some p =>
            rw [run_start_content lib _ _ _ _ _ p hf hp, hs] at h
            simp at h
    | EndElement n => exact Or.inl ⟨ts, rfl⟩
    | CharData x =>
      rw [run_skip lib _ _ _ _ (.CharData x) _ rfl] at h
      exact ih h
    | Comment x =>
      rw [run_skip lib _ _ _ _ (.Comment x) _ rfl] at h
      exact ih h
    | ProcInst x y =>
      rw [run_skip lib _ _ _ _ (.ProcInst x y) _ rfl] at h
      exact ih h
    | Directive x =>
      rw [run_skip lib _ _ _ _ (.Directive x) _ rfl] at h
      exact ih h

end Loop

/-- A body that ends before a child element opens has no first child. -/
theorem firstChild_eq_none_of_closing (ts rest : List Token) (h : closing ts = some rest) :
    firstChild ts = none := by
  induction ts with
  | nil => rfl
  | cons t ts ih =>
    cases t with
    | StartElement se => simp [closing] at h
    | EndElement n => rfl
    | CharData x => exact ih h
    | Comment x => exact ih h
    | ProcInst x y => exact ih h
    | Directive x => exact ih h

theorem UnmarshalXML_eq_run {R : Type} (lib : XMLLib R) (b : SOAPBody Ptr) (heap : Heap R)
    (d : Decoder) (start : StartElement) (p : Ptr) (hp : b.Content = some p) :
    b.UnmarshalXML lib heap d start = SOAPBody.UnmarshalXML.run lib false b heap d := by
  simp [SOAPBody.UnmarshalXML, SOAPBody.UnmarshalXML.run, hp]

/-- C5, as the code has it: for a body with two child elements, the first
not a fault, and a non-nil response template, UnmarshalXML fails with the
error "Found multiple elements inside SOAP body; ..." when the first child
decodes into the template without error, whatever the two children hold;
when the first child fails to decode, UnmarshalXML returns that error. -/
theorem UnmarshalXML_two_children {R : Type} (lib : XMLLib R) (b : SOAPBody Ptr)
    (heap : Heap R) (d : Decoder) (start se1 : StartElement) (inner1 after : List Token)
    (c2 : StartElement × List Token × List Token) (p : Ptr)
    (hp : b.Content = some p)
    (h1 : firstChild d.tokens = some (se1, inner1, after))
    (hf : ¬ se1.isFault)
    (h2 : firstChild after = some c2) :
    ((lib.unmarshalContent se1 inner1 (heap p)).2 = none →
        (b.UnmarshalXML lib heap d start).err = some multipleElements) ∧
      (∀ e, (lib.unmarshalContent se1 inner1 (heap p)).2 = some e →
        (b.UnmarshalXML lib heap d start).err = some e) := by
  obtain ⟨ts, eof⟩ := d
  rw [UnmarshalXML_eq_run lib b heap _ start p hp,
    run_false_content lib b heap eof ts se1 inner1 after p h1 hf hp]
  constructor
  · intro hdec
    rw [hdec]
    exact run_true_firstChild lib _ _ _ _ _ h2
  · intro e hdec
    rw [hdec]

theorem UnmarshalXML_two_children_witness :
    (freshBody.UnmarshalXML exampleLib zeroHeap
        ⟨validBody.dropLast ++ twoChildrenBody, .lib (str "EOF")⟩ bodyStart).err =
      some multipleElements :=
  (UnmarshalXML_two_children exampleLib freshBody zeroHeap
    ⟨validBody.dropLast ++ twoChildrenBody, .lib (str "EOF")⟩ bodyStart
    ⟨⟨str typesNS, str "checkVatResponse"⟩, []⟩
    (validBody.dropLast.tail.dropLast) twoChildrenBody
    (⟨⟨[], str "a"⟩, []⟩, [], twoChildrenBody.tail.tail) 0 rfl (by decide) (by decide)
    (by decide)).1 (by decide)

/-- C5, refuted as stated: a body with the two children a and b, neither a
fault, and a non-nil template of type CheckVatResponse. The first child does
not decode into the template, and UnmarshalXML returns that error, not the
error "Found multiple elements inside SOAP body; ...". -/
theorem UnmarshalXML_two_children_decode_error :
    freshBody.Content = some 0 ∧
      firstChild twoChildrenBody =
        some (⟨⟨[], str "a"⟩, []⟩, [], twoChildrenBody.tail.tail) ∧
      firstChild twoChildrenBody.tail.tail =
        some (⟨⟨[], str "b"⟩, []⟩, [], [endTag soapNS "Body"]) ∧
      (freshBody.UnmarshalXML exampleLib zeroHeap ⟨twoChildrenBody, .lib (str "EOF")⟩
          bodyStart).err =
        some (.UnmarshalError (str "expected element type <checkVatResponse> but have <a>")) ∧
      (freshBody.UnmarshalXML exampleLib zeroHeap ⟨twoChildrenBody, .lib (str "EOF")⟩
          bodyStart).err ≠ some multipleElements := by
  refine ⟨rfl, by decide, by decide, by decide, by decide⟩

theorem fieldText_gap (loc : GoString) (inField : Bool) (acc : Option GoString)
    (gap : List GoString) (ts : List Token) :
    fieldText loc 0 inField acc (gap.map .CharData ++ ts) = fieldText loc 0 inField acc ts := by
  induction gap with
  | nil => rfl
  | cons g gap ih =>
    simp only [List.map_cons, List.cons_append, fieldText, List.append_eq]
    exact ih

theorem fieldText_text_in (loc : GoString) (data : GoString) (text : List GoString)
    (n : Name) (ts : List Token) :
    fieldText loc 1 true (some data) (text.map .CharData ++ .EndElement n :: ts) =
      fieldText loc 0 false (some (data ++ text.flatten)) ts := by
  induction text generalizing data with
  | nil => simp [fieldText]
  | cons t text ih =>
    simp only [List.map_cons, List.cons_append, fieldText, List.flatten_cons, List.append_eq]
    rw [ih, List.append_assoc]

theorem fieldText_text_out (loc : GoString) (acc : Option GoString) (text : List GoString)
    (n : Name) (ts : List Token) :
    fieldText loc 1 false acc (text.map .CharData ++ .EndElement n :: ts) =
      fieldText loc 0 false acc ts := by
  induction text with
  | nil => simp [fieldText]
  | cons t text ih =>
    simp only [List.map_cons, List.cons_append, fieldText, List.append_eq]
    exact ih

theorem fieldText_child (loc : GoString) (inField : Bool) (acc : Option GoString)
    (c : TextChild) (ts : List Token) :
    fieldText loc 0 inField acc (c.tokens ++ ts) =
      fieldText loc 0 false (if c.Name.Local = loc then some c.text.flatten else acc) ts := by
  unfold TextChild.tokens
  rw [List.append_assoc, fieldText_gap]
  simp only [List.cons_append, List.append_assoc, List.singleton_append, fieldText,
    List.append_eq]
  by_cases h : c.Name.Local = loc
  · simp only [h, if_true]
    rw [fieldText_text_in]
    simp
  · simp only [h, if_false]
    rw [fieldText_text_out]
    simp

theorem fieldText_children (loc : GoString) (acc : Option GoString) (kids : List TextChild)
    (ts : List Token) :
    fieldText loc 0 false acc (kids.flatMap TextChild.tokens ++ ts) =
      fieldText loc 0 false
        (kids.foldl (fun a c => if c.Name.Local = loc then some c.text.flatten else a) acc)
        ts := by
  induction kids generalizing acc with
  | nil => rfl
  | cons c kids ih =>
    simp only [List.flatMap_cons, List.append_assoc, List.foldl_cons]
    rw [fieldText_child, ih]

theorem foldl_lastText (loc : GoString) (acc : Option GoString) (kids : List TextChild) :
    kids.foldl (fun a c => if c.Name.Local = loc then some c.text.flatten else a) acc =
      match kids.reverse.find? (fun c => c.Name.Local = loc) with
      | some c => some c.text.flatten
      | none => acc := by
  induction kids generalizing acc with
  | nil => rfl
  | cons c kids ih =>
    simp only [List.foldl_cons, List.reverse_cons, List.find?_append]
    rw [ih]
    cases hfind : kids.reverse.find? (fun c => c.Name.Local = loc) with
    | some c' => simp
    | none =>
      by_cases h : c.Name.Local = loc
      · simp [List.find?, h]
      · simp [List.find?, h]

/-- A field of a struct decoded from children that hold text only is the
text of the last child of its name. -/
theorem fieldOr_textChildren (loc : String) (kids : List TextChild)
    (trailing : List GoString) :
    fieldOr loc (textChildren kids trailing) [] = lastText (str loc) kids := by
  unfold fieldOr textChildren lastText
  rw [fieldText_children, foldl_lastText]
  have h := fieldText_gap (str loc) false
    (match kids.reverse.find? (fun c => c.Name.Local = str loc) with
      | some c => some c.text.flatten
      | none => none) trailing []
  rw [List.append_nil] at h
  rw [h]
  cases kids.reverse.find? (fun c => c.Name.Local = str loc) <;> simp [fieldText]

/-- C6, as the code has it: for a body whose only child element is the
fault element and a non-nil response template, UnmarshalXML succeeds,
Content is nil, the response values are unchanged, and Fault is a fault
whose Code, String, Actor and Detail are the character data directly inside
the last child named faultcode, faultstring, faultactor and detail, or empty
without such a child. When the children of the fault hold text only, the
four fields are the texts of those children verbatim. -/
theorem UnmarshalXML_sole_fault {R : Type} (lib : XMLLib R) (b : SOAPBody Ptr)
    (heap : Heap R) (d : Decoder) (start se : StartElement) (inner after rest : List Token)
    (p : Ptr)
    (hlib : lib.unmarshalFault = unmarshalSOAPFault)
    (hp : b.Content = some p)
    (h1 : firstChild d.tokens = some (se, inner, after))
    (hf : se.isFault)
    (hc : closing after = some rest) :
    (b.UnmarshalXML lib heap d start).err = none ∧
      (b.UnmarshalXML lib heap d start).b.Content = none ∧
      (b.UnmarshalXML lib heap d start).heap = heap ∧
      (b.UnmarshalXML lib heap d start).b.Fault =
        some ⟨se.Name, fieldOr "faultcode" inner [], fieldOr "faultstring" inner [],
          fieldOr "faultactor" inner [], fieldOr "detail" inner []⟩ ∧
      (∀ kids trailing, inner = textChildren kids trailing →
        (b.UnmarshalXML lib heap d start).b.Fault =
          some ⟨se.Name, lastText (str "faultcode") kids, lastText (str "faultstring") kids,
            lastText (str "faultactor") kids, lastText (str "detail") kids⟩) := by
  obtain ⟨ts, eof⟩ := d
  have hdec : (lib.unmarshalFault se inner SOAPFault.zero).2 = none := by
    rw [hlib]
    rfl
  have hval : (lib.unmarshalFault se inner SOAPFault.zero).1 =
      ⟨se.Name, fieldOr "faultcode" inner [], fieldOr "faultstring" inner [],
        fieldOr "faultactor" inner [], fieldOr "detail" inner []⟩ := by
    rw [hlib]
    rfl
  rw [UnmarshalXML_eq_run lib b heap _ start p hp,
    run_false_fault lib b heap eof ts se inner after h1 hf, hdec]
  simp only
  rw [run_true_closing lib _ heap eof after rest hc, hval]
  refine ⟨rfl, rfl, rfl, rfl, ?_⟩
  intro kids trailing hinner
  subst hinner
  simp only [fieldOr_textChildren]

theorem UnmarshalXML_sole_fault_witness :
    (freshBody.UnmarshalXML exampleLib zeroHeap ⟨faultBody, .lib (str "EOF")⟩ bodyStart).err =
        none ∧
      (freshBody.UnmarshalXML exampleLib zeroHeap ⟨faultBody, .lib (str "EOF")⟩
          bodyStart).b.Content = none ∧
      (freshBody.UnmarshalXML exampleLib zeroHeap ⟨faultBody, .lib (str "EOF")⟩
          bodyStart).heap = zeroHeap ∧
      (freshBody.UnmarshalXML exampleLib zeroHeap ⟨faultBody, .lib (str "EOF")⟩
          bodyStart).b.Fault =
        some ⟨⟨str soapNS, str "Fault"⟩, str "env:Server", str "INVALID_INPUT", [], []⟩ := by
  have h := UnmarshalXML_sole_fault exampleLib freshBody zeroHeap
    ⟨faultBody, .lib (str "EOF")⟩ bodyStart
    ⟨⟨str soapNS, str "Fault"⟩, []⟩ faultBody.tail.dropLast.dropLast [endTag soapNS "Body"] [] 0
    rfl rfl (by decide) (by decide) (by decide)
  refine ⟨h.1, h.2.1, h.2.2.1, ?_⟩
  have hk := h.2.2.2.2
    [⟨[], ⟨[], str "faultcode"⟩, [], [str "env:Server"]⟩,
      ⟨[], ⟨[], str "faultstring"⟩, [], [str "INVALID_INPUT"]⟩] [] (by decide)
  rw [hk]
  decide

/-- C6, refuted as stated: a body whose only child is a fault with the
children faultcode, faultstring and detail, the detail holding an element
reason with the text bad. UnmarshalXML succeeds and Detail is the empty
string, not the content of the detail child. -/
theorem UnmarshalXML_structured_detail :
    firstChild structuredFaultBody =
        some (⟨⟨str soapNS, str "Fault"⟩, []⟩, (structuredFaultBody.drop 1).take 11,
          [endTag soapNS "Body"]) ∧
      firstChild (structuredFaultBody.drop 7) =
        some (⟨⟨[], str "detail"⟩, []⟩, [startTag "" "reason", text "bad", endTag "" "reason"],
          [endTag soapNS "Fault", endTag soapNS "Body"]) ∧
      (freshBody.UnmarshalXML exampleLib zeroHeap ⟨structuredFaultBody, .lib (str "EOF")⟩
          bodyStart).err = none ∧
      (freshBody.UnmarshalXML exampleLib zeroHeap ⟨structuredFaultBody, .lib (str "EOF")⟩
          bodyStart).b.Fault =
        some ⟨⟨str soapNS, str "Fault"⟩, str "env:Server", str "INVALID_INPUT", [], []⟩ := by
  refine ⟨by decide, by decide, by decide, by decide⟩

/-- C7, refuted as stated: on a body without child element, entered as Call
enters it, UnmarshalXML returns nil; no child element was consumed, Fault
is nil and the response value is the untouched template. -/
theorem UnmarshalXML_empty_body_succeeds :
    firstChild emptyBody = none ∧
      (freshBody.UnmarshalXML exampleLib zeroHeap ⟨emptyBody, .lib (str "EOF")⟩ bodyStart).err =
        none ∧
      (freshBody.UnmarshalXML exampleLib zeroHeap ⟨emptyBody, .lib (str "EOF")⟩
          bodyStart).b.Fault = none ∧
      (freshBody.UnmarshalXML exampleLib zeroHeap ⟨emptyBody, .lib (str "EOF")⟩
          bodyStart).heap 0 = CheckVatResponse.zero := by
  refine ⟨by decide, by decide, by decide, by decide⟩

/-- C7, as the code has it: when UnmarshalXML, entered with a nil Fault,
returns nil, the body was read through its end tag and held at most one
child element. Either it held none, and then Fault is nil, Content is still
the caller's pointer and the response values are unchanged; or it held
exactly one, and then exactly one of Fault and Content is populated from it:
the child is the fault element, Fault is what the library decoded from it,
Content is nil and the response values are unchanged; or the child is not
the fault element, Fault is nil, Content is the caller's pointer and the
value behind it is what the library decoded from the child. -/
theorem UnmarshalXML_success_shape {R : Type} (lib : XMLLib R) (b : SOAPBody Ptr)
    (heap : Heap R) (d : Decoder) (start : StartElement) (res : UnmarshalResult R)
    (hres : b.UnmarshalXML lib heap d start = res)
    (hF : b.Fault = none) (herr : res.err = none) :
    (firstChild d.tokens = none ∧ closing d.tokens = some res.d.tokens ∧
        res.b.Fault = none ∧ res.b.Content = b.Content ∧ b.Content ≠ none ∧ res.heap = heap) ∨
      (∃ se inner after,
        firstChild d.tokens = some (se, inner, after) ∧ closing after = some res.d.tokens ∧
          ((se.isFault ∧ (lib.unmarshalFault se inner SOAPFault.zero).2 = none ∧
              res.b.Fault = some (lib.unmarshalFault se inner SOAPFault.zero).1 ∧
              res.b.Content = none ∧ res.heap = heap) ∨
            (¬ se.isFault ∧ ∃ p, b.Content = some p ∧
              (lib.unmarshalContent se inner (heap p)).2 = none ∧
              res.b.Fault = none ∧ res.b.Content = some p ∧
              res.heap = Function.update heap p (lib.unmarshalContent se inner (heap p)).1))) := by
  subst hres
  obtain ⟨ts, eof⟩ := d
  cases hp : b.Content with
  | none => simp [SOAPBody.UnmarshalXML, hp] at herr
  | some p =>
    rw [UnmarshalXML_eq_run lib b heap _ start p hp] at herr ⊢
    rcases run_false_success lib b heap eof ts herr with ⟨rest, hcl⟩ | ⟨⟨se, inner, after⟩, hfc⟩
    · left
      rw [run_false_closing lib b heap eof ts rest hcl]
      refine ⟨firstChild_eq_none_of_closing ts rest hcl, hcl, hF, hp, by simp, rfl⟩
    · right
      refine ⟨se, inner, after, hfc, ?_⟩
      by_cases hf : se.isFault
      · rw [run_false_fault lib b heap eof ts se inner after hfc hf] at herr ⊢
        cases hdec : (lib.unmarshalFault se inner SOAPFault.zero).2 with
        | some e => rw [hdec] at herr; simp at herr
        | none =>
          rw [hdec] at herr
          simp only at herr ⊢
          obtain ⟨rest, hcl, hrun⟩ := run_true_success lib _ heap eof after herr
          rw [hrun]
          exact ⟨hcl, Or.inl ⟨hf, trivial, rfl, rfl, rfl⟩⟩
      · rw [run_false_content lib b heap eof ts se inner after p hfc hf hp] at herr ⊢
        cases hdec : (lib.unmarshalContent se inner (heap p)).2 with
        | some e => rw [hdec] at herr; simp at herr
        | none =>
          rw [hdec] at herr
          simp only at herr ⊢
          obtain ⟨rest, hcl, hrun⟩ := run_true_success lib b _ eof after herr
          rw [hrun]
          exact ⟨hcl, Or.inr ⟨hf, p, rfl, hdec, hF, hp, rfl⟩⟩

theorem UnmarshalXML_success_shape_witness :
    ∃ se inner after,
      firstChild validBody = some (se, inner, after) ∧ ¬ se.isFault ∧
        (freshBody.UnmarshalXML exampleLib zeroHeap ⟨validBody, .lib (str "EOF")⟩
            bodyStart).b.Fault = none ∧
        (freshBody.UnmarshalXML exampleLib zeroHeap ⟨validBody, .lib (str "EOF")⟩
            bodyStart).b.Content = some 0 ∧
        (freshBody.UnmarshalXML exampleLib zeroHeap ⟨validBody, .lib (str "EOF")⟩
            bodyStart).heap =
          Function.update zeroHeap 0 (exampleLib.unmarshalContent se inner (zeroHeap 0)).1 := by
  rcases UnmarshalXML_success_shape exampleLib freshBody zeroHeap
      ⟨validBody, .lib (str "EOF")⟩ bodyStart _ rfl rfl (by decide) with h | ⟨se, inner, after, h1, _, h⟩
  · exact absurd h.1 (by decide)
  · rcases h with h | ⟨hf, p, hp, _, hFault, hContent, hheap⟩
    · have hse : se = ⟨⟨str typesNS, str "checkVatResponse"⟩, []⟩ := by
        have h2 : firstChild validBody =
            some (⟨⟨str typesNS, str "checkVatResponse"⟩, []⟩,
              validBody.tail.dropLast.dropLast, [endTag soapNS "Body"]) := by decide
        rw [h2] at h1
        simp only [Option.some.injEq, Prod.mk.injEq] at h1
        exact h1.1.symm
      subst hse
      exact absurd h.1 (by decide)
    · have hp0 : p = 0 := by
        have : freshBody.Content = some 0 := rfl
        rw [this] at hp
        exact (Option.some.inj hp).symm
      subst hp0
      exact ⟨se, inner, after, h1, hf, hFault, hContent, hheap⟩

/-! ## Theorems: the client, the facade and the validator -/

theorem Call_empty {H Q R : Type} (w : World H Q R) (s : SOAPClient H) (soapAction : GoString)
    (request : Option Q) (response : Option Ptr) (heap : Heap R)
    (buf1 buf2 rawbody : GoString) (req : Request)
    (hE : w.Encode (s.requestEnvelope request) = (buf1, none))
    (hF : w.Flush buf1 = (buf2, none))
    (hN : w.NewRequest (str "POST") s.url buf2 = .ok req)
    (hD : w.Do s.hc (req.prepare soapAction) = .ok (rawbody, none))
    (hlen : rawbody.length = 0) :
    s.Call w soapAction request response heap =
      ⟨some .ErrEmptyResponse, heap, s.requestDump buf2⟩ := by
  simp only [SOAPClient.Call, hE, hF, hN, hD, hlen, if_true]

theorem Call_fault {H Q R : Type} (w : World H Q R) (s : SOAPClient H) (soapAction : GoString)
    (request : Option Q) (response : Option Ptr) (heap heap' : Heap R)
    (buf1 buf2 rawbody : GoString) (req : Request) (env' : SOAPEnvelope H Ptr) (f : SOAPFault)
    (hE : w.Encode (s.requestEnvelope request) = (buf1, none))
    (hF : w.Flush buf1 = (buf2, none))
    (hN : w.NewRequest (str "POST") s.url buf2 = .ok req)
    (hD : w.Do s.hc (req.prepare soapAction) = .ok (rawbody, none))
    (hlen : rawbody.length ≠ 0)
    (hU : w.Unmarshal rawbody (responseEnvelope response) heap = (none, env', heap'))
    (hfault : env'.Body.Fault = some f) :
    s.Call w soapAction request response heap =
      ⟨some (.errorString (str "Service returned error: " ++ f.String)), heap',
        s.responseDump buf2 rawbody⟩ := by
  simp only [SOAPClient.Call, hE, hF, hN, hD, hlen, if_false, hU, hfault]

theorem Call_success {H Q R : Type} (w : World H Q R) (s : SOAPClient H) (soapAction : GoString)
    (request : Option Q) (response : Option Ptr) (heap heap' : Heap R)
    (buf1 buf2 rawbody : GoString) (req : Request) (env' : SOAPEnvelope H Ptr)
    (hE : w.Encode (s.requestEnvelope request) = (buf1, none))
    (hF : w.Flush buf1 = (buf2, none))
    (hN : w.NewRequest (str "POST") s.url buf2 = .ok req)
    (hD : w.Do s.hc (req.prepare soapAction) = .ok (rawbody, none))
    (hlen : rawbody.length ≠ 0)
    (hU : w.Unmarshal rawbody (responseEnvelope response) heap = (none, env', heap'))
    (hfault : env'.Body.Fault = none) :
    s.Call w soapAction request response heap =
      ⟨none, heap', s.responseDump buf2 rawbody⟩ := by
  simp only [SOAPClient.Call, hE, hF, hN, hD, hlen, if_false, hU, hfault]

theorem CheckVat_of_Call {H : Type} (w : World H CheckVat CheckVatResponse)
    (service : CheckVatService H) (request : CheckVat) (e : GoError) (heap' : Heap CheckVatResponse)
    (out : GoString)
    (h : service.client.Call w [] (some request) (some 0) (fun _ => CheckVatResponse.zero) =
      ⟨some e, heap', out⟩) :
    service.CheckVat w request = ⟨none, some e, out⟩ := by
  simp only [CheckVatService.CheckVat, h]

theorem Validate_of_CheckVat_error {H : Type} (w : World H CheckVat CheckVatResponse)
    (vv : VatValidator H) (num : GoString) (e : GoError) (resp : Option CheckVatResponse)
    (out : GoString) (hs : (vv.Split num).err = none)
    (h : vv.ws.CheckVat w ⟨⟨[], []⟩, (vv.Split num).country, (vv.Split num).num⟩ =
      ⟨resp, some e, out⟩) :
    vv.Validate w num = some ⟨false, some e, out⟩ := by
  simp only [VatValidator.Validate, hs, h]

/-- C8: whenever the request is encoded and sent, the HTTP exchange succeeds
and the body read has length zero, Call returns exactly ErrEmptyResponse,
whatever xml.Unmarshal would do (it is not called), and the response values
are unchanged; then CheckVat returns (nil, ErrEmptyResponse), and Validate,
for a number that Split accepts, returns (false, ErrEmptyResponse). -/
theorem empty_response :
    (∀ (H Q R : Type) (w : World H Q R) (s : SOAPClient H) (soapAction : GoString)
        (request : Option Q) (response : Option Ptr) (heap : Heap R)
        (buf1 buf2 rawbody : GoString) (req : Request),
        w.Encode (s.requestEnvelope request) = (buf1, none) →
        w.Flush buf1 = (buf2, none) →
        w.NewRequest (str "POST") s.url buf2 = .ok req →
        w.Do s.hc (req.prepare soapAction) = .ok (rawbody, none) →
        rawbody.length = 0 →
        ∀ U, s.Call { w with Unmarshal := U } soapAction request response heap =
          ⟨some .ErrEmptyResponse, heap, s.requestDump buf2⟩) ∧
      (∀ (H : Type) (w : World H CheckVat CheckVatResponse) (service : CheckVatService H)
        (request : CheckVat) (buf1 buf2 rawbody : GoString) (req : Request),
        w.Encode (service.client.requestEnvelope (some request)) = (buf1, none) →
        w.Flush buf1 = (buf2, none) →
        w.NewRequest (str "POST") service.client.url buf2 = .ok req →
        w.Do service.client.hc (req.prepare []) = .ok (rawbody, none) →
        rawbody.length = 0 →
        service.CheckVat w request =
          ⟨none, some .ErrEmptyResponse, service.client.requestDump buf2⟩) ∧
      (∀ (H : Type) (w : World H CheckVat CheckVatResponse) (vv : VatValidator H)
        (num buf1 buf2 rawbody : GoString) (req : Request),
        (vv.Split num).err = none →
        w.Encode (vv.ws.client.requestEnvelope
          (some ⟨⟨[], []⟩, (vv.Split num).country, (vv.Split num).num⟩)) = (buf1, none) →
        w.Flush buf1 = (buf2, none) →
        w.NewRequest (str "POST") vv.ws.client.url buf2 = .ok req →
        w.Do vv.ws.client.hc (req.prepare []) = .ok (rawbody, none) →
        rawbody.length = 0 →
        vv.Validate w num =
          some ⟨false, some .ErrEmptyResponse, vv.ws.client.requestDump buf2⟩) := by
  refine ⟨?_, ?_, ?_⟩
  · intro H Q R w s soapAction request response heap buf1 buf2 rawbody req hE hF hN hD hlen U
    exact Call_empty { w with Unmarshal := U } s soapAction request response heap buf1 buf2
      rawbody req hE hF hN hD hlen
  · intro H w service request buf1 buf2 rawbody req hE hF hN hD hlen
    exact CheckVat_of_Call w service request _ _ _
      (Call_empty w service.client [] (some request) (some 0) _ buf1 buf2 rawbody req
        hE hF hN hD hlen)
  · intro H w vv num buf1 buf2 rawbody req hs hE hF hN hD hlen
    exact Validate_of_CheckVat_error w vv num _ none _ hs
      (CheckVat_of_Call w vv.ws _ _ _ _
        (Call_empty w vv.ws.client [] (some _) (some 0) _ buf1 buf2 rawbody req
          hE hF hN hD hlen))

theorem empty_response_witness :
    (New false 3 false : VatValidator Unit).Validate (exampleWorld [] emptyBody)
        (str "IT06700351213") =
      some ⟨false, some .ErrEmptyResponse, []⟩ :=
  empty_response.2.2 Unit (exampleWorld [] emptyBody) (New false 3 false)
    (str "IT06700351213") (str "IT06700351213") (str "IT06700351213") []
    ⟨str "POST", checkVatServiceURL, str "IT06700351213", [], false⟩
    (by decide) rfl rfl rfl rfl rfl

/-- C9: whenever the request is encoded and sent, the response body is not
empty and xml.Unmarshal returns nil with a Fault in the decoded body, Call
returns a non-nil error whose message is "Service returned error: " followed
by the faultstring; CheckVat returns (nil, that error), and Validate, for a
number that Split accepts, returns (false, that error). -/
theorem fault_response :
    (∀ (H Q R : Type) (w : World H Q R) (s : SOAPClient H) (soapAction : GoString)
        (request : Option Q) (response : Option Ptr) (heap heap' : Heap R)
        (buf1 buf2 rawbody : GoString) (req : Request) (env' : SOAPEnvelope H Ptr)
        (f : SOAPFault),
        w.Encode (s.requestEnvelope request) = (buf1, none) →
        w.Flush buf1 = (buf2, none) →
        w.NewRequest (str "POST") s.url buf2 = .ok req →
        w.Do s.hc (req.prepare soapAction) = .ok (rawbody, none) →
        rawbody.length ≠ 0 →
        w.Unmarshal rawbody (responseEnvelope response) heap = (none, env', heap') →
        env'.Body.Fault = some f →
        s.Call w soapAction request response heap =
            ⟨some (.errorString (str "Service returned error: " ++ f.String)), heap',
              s.responseDump buf2 rawbody⟩ ∧
          (GoError.errorString (str "Service returned error: " ++ f.String)).Error =
            str "Service returned error: " ++ f.String) ∧
      (∀ (H : Type) (w : World H CheckVat CheckVatResponse) (service : CheckVatService H)
        (request : CheckVat) (heap' : Heap CheckVatResponse)
        (buf1 buf2 rawbody : GoString) (req : Request) (env' : SOAPEnvelope H Ptr)
        (f : SOAPFault),
        w.Encode (service.client.requestEnvelope (some request)) = (buf1, none) →
        w.Flush buf1 = (buf2, none) →
        w.NewRequest (str "POST") service.client.url buf2 = .ok req →
        w.Do service.client.hc (req.prepare []) = .ok (rawbody, none) →
        rawbody.length ≠ 0 →
        w.Unmarshal rawbody (responseEnvelope (some 0)) (fun _ => CheckVatResponse.zero) =
          (none, env', heap') →
        env'.Body.Fault = some f →
        service.CheckVat w request =
          ⟨none, some (.errorString (str "Service returned error: " ++ f.String)),
            service.client.responseDump buf2 rawbody⟩) ∧
      (∀ (H : Type) (w : World H CheckVat CheckVatResponse) (vv : VatValidator H)
        (num : GoString) (heap' : Heap CheckVatResponse)
        (buf1 buf2 rawbody : GoString) (req : Request) (env' : SOAPEnvelope H Ptr)
        (f : SOAPFault),
        (vv.Split num).err = none →
        w.Encode (vv.ws.client.requestEnvelope
          (some ⟨⟨[], []⟩, (vv.Split num).country, (vv.Split num).num⟩)) = (buf1, none) →
        w.Flush buf1 = (buf2, none) →
        w.NewRequest (str "POST") vv.ws.client.url buf2 = .ok req →
        w.Do vv.ws.client.hc (req.prepare []) = .ok (rawbody, none) →
        rawbody.length ≠ 0 →
        w.Unmarshal rawbody (responseEnvelope (some 0)) (fun _ => CheckVatResponse.zero) =
          (none, env', heap') →
        env'.Body.Fault = some f →
        vv.Validate w num =
          some ⟨false, some (.errorString (str "Service returned error: " ++ f.String)),
            vv.ws.client.responseDump buf2 rawbody⟩) := by
  refine ⟨?_, ?_, ?_⟩
  · intro H Q R w s soapAction request response heap heap' buf1 buf2 rawbody req env' f
      hE hF hN hD hlen hU hfault
    exact ⟨Call_fault w s soapAction request response heap heap' buf1 buf2 rawbody req env' f
      hE hF hN hD hlen hU hfault, rfl⟩
  · intro H w service request heap' buf1 buf2 rawbody req env' f hE hF hN hD hlen hU hfault
    exact CheckVat_of_Call w service request _ _ _
      (Call_fault w service.client [] (some request) (some 0) _ heap' buf1 buf2 rawbody req
        env' f hE hF hN hD hlen hU hfault)
  · intro H w vv num heap' buf1 buf2 rawbody req env' f hs hE hF hN hD hlen hU hfault
    exact Validate_of_CheckVat_error w vv num _ none _ hs
      (CheckVat_of_Call w vv.ws _ _ _ _
        (Call_fault w vv.ws.client [] (some _) (some 0) _ heap' buf1 buf2 rawbody req
          env' f hE hF hN hD hlen hU hfault))

theorem fault_response_witness :
    (New false 3 false : VatValidator Unit).Validate (exampleWorld (str "<xml>") faultBody)
        (str "IT06700351213") =
      some ⟨false, some (.errorString (str "Service returned error: INVALID_INPUT")), []⟩ :=
  fault_response.2.2 Unit (exampleWorld (str "<xml>") faultBody) (New false 3 false)
    (str "IT06700351213") zeroHeap (str "IT06700351213") (str "IT06700351213") (str "<xml>")
    ⟨str "POST", checkVatServiceURL, str "IT06700351213", [], false⟩
    { (responseEnvelope (some 0) : SOAPEnvelope Unit Ptr) with
      Body := ⟨⟨[], []⟩,
        some ⟨⟨str soapNS, str "Fault"⟩, str "env:Server", str "INVALID_INPUT", [], []⟩, none⟩ }
    ⟨⟨str soapNS, str "Fault"⟩, str "env:Server", str "INVALID_INPUT", [], []⟩
    (by decide) rfl rfl rfl rfl (by decide) rfl rfl

/-- C10: Validate first calls Split. If Split fails, Validate returns
(false, that error) in every world and prints nothing: the service is not
called. Otherwise it calls CheckVat with the request whose CountryCode is
the prefix and whose VatNumber is the number part that Split returned, and
returns (false, the error of CheckVat) when CheckVat fails and
(resp.Valid, nil) when it succeeds. -/
theorem Validate_spec {H : Type} (w : World H CheckVat CheckVatResponse) (vv : VatValidator H)
    (num : GoString) :
    (∀ e, (vv.Split num).err = some e →
      ∀ w' : World H CheckVat CheckVatResponse, vv.Validate w' num = some ⟨false, some e, []⟩) ∧
    ((vv.Split num).err = none →
      (∀ e, (vv.ws.CheckVat w ⟨⟨[], []⟩, (vv.Split num).country, (vv.Split num).num⟩).err = some e →
        vv.Validate w num = some ⟨false, some e,
          (vv.ws.CheckVat w ⟨⟨[], []⟩, (vv.Split num).country, (vv.Split num).num⟩).stdout⟩) ∧
      ((vv.ws.CheckVat w ⟨⟨[], []⟩, (vv.Split num).country, (vv.Split num).num⟩).err = none →
        ∃ resp,
          (vv.ws.CheckVat w ⟨⟨[], []⟩, (vv.Split num).country, (vv.Split num).num⟩).response =
            some resp ∧
          vv.Validate w num = some ⟨resp.Valid, none,
            (vv.ws.CheckVat w ⟨⟨[], []⟩, (vv.Split num).country, (vv.Split num).num⟩).stdout⟩)) := by
  refine ⟨fun e he w' => ?_, fun hs => ⟨fun e he => ?_, fun he => ?_⟩⟩
  · simp only [VatValidator.Validate, he]
  · simp only [VatValidator.Validate, hs, he]
  · have hr : ∃ resp, (vv.ws.CheckVat w
        ⟨⟨[], []⟩, (vv.Split num).country, (vv.Split num).num⟩).response = some resp := by
      revert he
      simp only [CheckVatService.CheckVat]
      split
      · intro h; simp at h
      · intro _; exact ⟨_, rfl⟩
    obtain ⟨resp, hresp⟩ := hr
    exact ⟨resp, hresp, by simp only [VatValidator.Validate, hs, he, hresp]⟩

theorem Validate_spec_witness :
    (New true 3 false : VatValidator Unit).Validate (exampleWorld (str "<xml>") validBody)
          (str "US12345678") =
        some ⟨false, some .ErrUnknownCountryPrefix, []⟩ ∧
      (New false 3 false : VatValidator Unit).Validate (exampleWorld (str "<xml>") validBody)
          (str "IT06700351213") =
        some ⟨true, none, []⟩ := by
  constructor
  · exact (Validate_spec (exampleWorld (str "<xml>") validBody) (New true 3 false)
      (str "US12345678")).1 _ (by decide) _
  · obtain ⟨resp, hresp, hv⟩ :=
      ((Validate_spec (exampleWorld (str "<xml>") validBody)
        (New false 3 false : VatValidator Unit) (str "IT06700351213")).2 (by decide)).2
        (by decide)
    have hvalid : ((New false 3 false : VatValidator Unit).ws.CheckVat
        (exampleWorld (str "<xml>") validBody)
        ⟨⟨[], []⟩, ((New false 3 false : VatValidator Unit).Split (str "IT06700351213")).country,
          ((New false 3 false : VatValidator Unit).Split (str "IT06700351213")).num⟩) =
        ⟨some ⟨⟨str typesNS, str "checkVatResponse"⟩, str "IT", str "06700351213", ⟨0, 0⟩, true,
          [], []⟩, none, []⟩ := by decide
    rw [hvalid] at hresp hv
    simp only [Option.some.injEq] at hresp
    rw [← hresp] at hv
    exact hv

end Euvv
